import Mathlib

/-
Shallow embedding of the qoi crate (src/src/lib.rs, src/src/encode.rs,
src/src/decode.rs).  Bytes are modelled as `Nat` values below 256; `usize`
arithmetic that can overflow is taken modulo 2^64 (release-build wrapping
semantics); `i8`/`i16` arithmetic is modelled on `Int` (no i16 overflow occurs
at any site that is reachable, see the comments at each definition); fallible
functions return `Except QoiError`; a Rust panic (out-of-bounds slice write in
the encoder) is modelled as `Option.none`.
-/

set_option maxRecDepth 10000

deriving instance DecidableEq for Except

namespace Qoi

/-- Error enum from src/src/lib.rs.  `TooBig` is referenced by
src/src/encode.rs and src/src/decode.rs but its declaration lives in a lib.rs
revision that is not under src/; it is modelled from the spec (section 7 error
taxonomy).  `Io` carries an opaque `std::io::Error` payload in the source that
the core never constructs; the payload is dropped here. -/
inductive QoiError
  | InputSmallerThanHeader
  | IncorrectHeaderMagic
  | Channels
  | InputSize
  | OutputTooSmall
  | InvalidHeader
  | TooBig
  | Io
deriving DecidableEq

/-- Channels enum from src/src/lib.rs. -/
inductive Channels
  | Three
  | Four
deriving DecidableEq

/-- Channels::len from src/src/lib.rs. -/
def Channels.len : Channels → Nat
  | .Three => 3
  | .Four => 4

/-- TryFrom<u8> for Channels from src/src/lib.rs. -/
def Channels.try_from (value : Nat) : Except QoiError Channels :=
  match value with
  | 3 => .ok .Three
  | 4 => .ok .Four
  | _ => .error .Channels

/-- Pixel struct from src/src/lib.rs (four u8 fields). -/
structure Pixel where
  r : Nat
  g : Nat
  b : Nat
  a : Nat
deriving DecidableEq

/-- Default for Pixel from src/src/lib.rs: (0,0,0,0). -/
def Pixel.default : Pixel := ⟨0, 0, 0, 0⟩

/-- Pixel::new from src/src/lib.rs. -/
def Pixel.new (r g b a : Nat) : Pixel := ⟨r, g, b, a⟩

/-- Pixel::cache_index from src/src/lib.rs:
(r ^ g ^ b ^ a) as usize % 64. -/
def Pixel.cache_index (p : Pixel) : Nat :=
  (((p.r ^^^ p.g) ^^^ p.b) ^^^ p.a) % 64

/-- Pixel::modify_r from src/src/lib.rs: r.wrapping_add(change as u8) for an
i8 `change`; wrapping-add of the two's-complement image of `change` equals
adding `change` over Int and reducing modulo 256. -/
def Pixel.modify_r (p : Pixel) (change : Int) : Pixel :=
  { p with r := (((p.r : Int) + change).emod 256).toNat }

/-- Pixel::modify_g from src/src/lib.rs. -/
def Pixel.modify_g (p : Pixel) (change : Int) : Pixel :=
  { p with g := (((p.g : Int) + change).emod 256).toNat }

/-- Pixel::modify_b from src/src/lib.rs. -/
def Pixel.modify_b (p : Pixel) (change : Int) : Pixel :=
  { p with b := (((p.b : Int) + change).emod 256).toNat }

/-- Pixel::modify_a from src/src/lib.rs. -/
def Pixel.modify_a (p : Pixel) (change : Int) : Pixel :=
  { p with a := (((p.a : Int) + change).emod 256).toNat }

/-- A pixel whose four components are bytes. -/
def Pixel.wf (p : Pixel) : Prop :=
  p.r < 256 ∧ p.g < 256 ∧ p.b < 256 ∧ p.a < 256

-- Constants of impl Qoi from src/src/lib.rs.
def HEADER_SIZE : Nat := 14
def PADDING : Nat := 4
def INDEX : Nat := 0x00
def RUN_8 : Nat := 0x40
def RUN_16 : Nat := 0x60
def DIFF_8 : Nat := 0x80
def DIFF_16 : Nat := 0xC0
def DIFF_24 : Nat := 0xE0
def COLOR : Nat := 0xF0
def MASK_2 : Nat := 0xC0
def MASK_3 : Nat := 0xE0
def MASK_4 : Nat := 0xF0

/-- Modelled from the spec: `Qoi::MAX_SIZE`, the hard 1 GiB ceiling.  It is
referenced by src/src/encode.rs and src/src/decode.rs but declared in a lib.rs
revision that is not under src/; the spec fixes it to 1 GiB. -/
def MAX_SIZE : Nat := 1073741824

/-- Modulus of usize arithmetic (64-bit target, release-build wrapping). -/
def USIZE_MOD : Nat := 2 ^ 64

/-- usize::saturating_mul. -/
def saturating_mul (a b : Nat) : Nat := min (a * b) (USIZE_MOD - 1)

/-- usize::saturating_add. -/
def saturating_add (a b : Nat) : Nat := min (a + b) (USIZE_MOD - 1)

/-- QoiHeader struct from src/src/lib.rs. -/
structure QoiHeader where
  width : Nat
  height : Nat
  channels : Channels
  colour_space : Nat
deriving DecidableEq

/-- QoiHeader::new from src/src/lib.rs. -/
def QoiHeader.new (width height : Nat) (channels : Channels)
    (colour_space : Nat) : QoiHeader :=
  ⟨width, height, channels, colour_space⟩

/-- u32::to_be_bytes (big-endian byte decomposition of a u32 value). -/
def u32_to_be_bytes (n : Nat) : List Nat :=
  [n / 2 ^ 24 % 256, n / 2 ^ 16 % 256, n / 2 ^ 8 % 256, n % 256]

/-- QoiHeader::to_array from src/src/lib.rs: magic "qoif", width and height
big-endian, channel count byte, colour-space byte (14 bytes). -/
def QoiHeader.to_array (h : QoiHeader) : List Nat :=
  [113, 111, 105, 102] ++ u32_to_be_bytes h.width ++ u32_to_be_bytes h.height
    ++ [h.channels.len, h.colour_space]

/-- QoiHeader::raw_image_size from src/src/lib.rs lines 179-182:
`self.width() as usize * self.height() as usize * channels.len() as usize`,
plain usize multiplication, which wraps modulo 2^64 in release builds. -/
def QoiHeader.raw_image_size (h : QoiHeader) (channels : Channels) : Nat :=
  h.width * h.height % USIZE_MOD * channels.len % USIZE_MOD

/-- u32::from_be_bytes applied to input[i..i+4] (src/src/lib.rs
new_from_slice). -/
def u32_from_be_bytes (l : List Nat) (i : Nat) : Nat :=
  ((l.getD i 0 * 256 + l.getD (i + 1) 0) * 256 + l.getD (i + 2) 0) * 256
    + l.getD (i + 3) 0

/-- QoiHeader::new_from_slice from src/src/lib.rs lines 192-209: length
check, magic check, then field extraction ("qoif" = [113,111,105,102]). -/
def QoiHeader.new_from_slice (input : List Nat) : Except QoiError QoiHeader :=
  if input.length < HEADER_SIZE then .error .InputSmallerThanHeader
  else if input.take 4 ≠ [113, 111, 105, 102] then .error .IncorrectHeaderMagic
  else
    match Channels.try_from (input.getD 12 0) with
    | .error e => .error e
    | .ok c =>
        .ok ⟨u32_from_be_bytes input 4, u32_from_be_bytes input 8, c,
          input.getD 13 0⟩

/-- IsBetween::is_between for i16 from src/src/lib.rs:
`*self >= low && *self <= high`. -/
def is_between (x low high : Int) : Bool :=
  decide (low ≤ x) && decide (x ≤ high)

/-- Cast of an i16 (or i8) value to u8: low 8 bits of the two's-complement
representation, i.e. reduction modulo 256. -/
def u8cast (x : Int) : Nat := (x.emod 256).toNat

/-- can_diff_8 from src/src/encode.rs. -/
def can_diff_8 (dr dg db da : Int) : Bool :=
  decide (da = 0) && is_between dr (-2) 1 && is_between dg (-2) 1
    && is_between db (-2) 1

/-- diff_8 from src/src/encode.rs:
`DIFF_8 | ((dr + 2) << 4) as u8 | ((dg + 2) << 2) as u8 | (db + 2) as u8`.
Left shifts of an i16 by k are multiplications by 2^k followed by the u8 cast
(reduction mod 256, which absorbs any i16 wrap since 2^16 is a multiple of
256). -/
def diff_8 (dr dg db : Int) : Nat :=
  DIFF_8 ||| u8cast ((dr + 2) * 16) ||| u8cast ((dg + 2) * 4) ||| u8cast (db + 2)

/-- can_diff_16 from src/src/encode.rs. -/
def can_diff_16 (dr dg db da : Int) : Bool :=
  decide (da = 0) && is_between dr (-16) 15 && is_between dg (-8) 7
    && is_between db (-8) 7

/-- diff_16 from src/src/encode.rs: two bytes
[DIFF_16 | (dr+16) as u8, ((dg+8) << 4) as u8 | (db+8) as u8]. -/
def diff_16 (dr dg db : Int) : List Nat :=
  [DIFF_16 ||| u8cast (dr + 16), u8cast ((dg + 8) * 16) ||| u8cast (db + 8)]

/-- can_diff_24 from src/src/encode.rs. -/
def can_diff_24 (dr dg db da : Int) : Bool :=
  is_between dr (-16) 15 && is_between dg (-16) 15 && is_between db (-16) 15
    && is_between da (-16) 15

/-- diff_24 from src/src/encode.rs: three bytes packing the four 5-bit biased
deltas.  `(dr+16) >> 1` on the guarded (nonnegative, < 32) i16 values is
division by 2; the shifts-then-u8-casts are multiplications mod 256. -/
def diff_24 (dr dg db da : Int) : List Nat :=
  [DIFF_24 ||| u8cast ((dr + 16) / 2),
   u8cast ((dr + 16) * 128) ||| u8cast ((dg + 16) * 4) ||| u8cast ((db + 16) / 8),
   u8cast ((db + 16) * 32) ||| u8cast (da + 16)]

/-- The literal-color opcode of src/src/encode.rs lines 148-184: a COLOR tag
byte with one flag bit per changed channel, followed by the raw bytes of the
changed channels in r,g,b,a order.  The source reserves the tag byte's slot
and backfills it after the component bytes; the net bytes written are the tag
followed by the components. -/
def encColor (p : Pixel) (dr dg db da : Int) : List Nat :=
  let command := COLOR
  let command := if dr ≠ 0 then command ||| 8 else command
  let command := if dg ≠ 0 then command ||| 4 else command
  let command := if db ≠ 0 then command ||| 2 else command
  let command := if da ≠ 0 then command ||| 1 else command
  command ::
    ((if dr ≠ 0 then [p.r] else []) ++ (if dg ≠ 0 then [p.g] else [])
      ++ (if db ≠ 0 then [p.b] else []) ++ (if da ≠ 0 then [p.a] else []))

/-- Opcode emission for a changed pixel, src/src/encode.rs lines 77-185:
prefer the cache index opcode, otherwise write the cache slot and choose
diff_8 / diff_16 / diff_24 / literal color.  Returns the emitted bytes and
the updated cache. -/
def encOp (cache : List Pixel) (previous_pixel p : Pixel) :
    List Nat × List Pixel :=
  let cache_index := p.cache_index
  if p = cache.getD cache_index Pixel.default then
    ([INDEX ||| cache_index], cache)
  else
    let cache2 := cache.set cache_index p
    let dr : Int := (p.r : Int) - (previous_pixel.r : Int)
    let dg : Int := (p.g : Int) - (previous_pixel.g : Int)
    let db : Int := (p.b : Int) - (previous_pixel.b : Int)
    let da : Int := (p.a : Int) - (previous_pixel.a : Int)
    if can_diff_24 dr dg db da then
      if can_diff_8 dr dg db da then ([diff_8 dr dg db], cache2)
      else if can_diff_16 dr dg db da then (diff_16 dr dg db, cache2)
      else (diff_24 dr dg db da, cache2)
    else (encColor p dr dg db da, cache2)

/-- Run flush of src/src/encode.rs lines 60-75: a run of `run` pixels is
written as RUN_8 | (run-1) when run < 33, else as the two bytes
[RUN_16 | ((run-33) >> 8), (run-33) as u8]. -/
def runFlushBytes (run : Nat) : List Nat :=
  if run < 33 then [RUN_8 ||| (run - 1)]
  else [RUN_16 ||| ((run - 33) >>> 8) % 256, (run - 33) % 256]

/-- The per-chunk encoder loop of src/src/encode.rs lines 52-189.  The last
list element corresponds to `index == last_chunk_index`. -/
def encLoop : List Pixel → List Pixel → Pixel → Nat → List Nat
  | [], _, _, _ => []
  | p :: rest, cache, previous_pixel, run =>
      let run1 := if p = previous_pixel then run + 1 else run
      let flush := 0 < run1 ∧ (p ≠ previous_pixel ∨ run1 = 0x2020 ∨ rest = [])
      let fb := if flush then runFlushBytes run1 else []
      let run2 := if flush then 0 else run1
      if p = previous_pixel then fb ++ encLoop rest cache previous_pixel run2
      else
        let e := encOp cache previous_pixel p
        fb ++ e.1 ++ encLoop rest e.2 p 0

/-- Raw chunks of a 3-channel buffer: alpha defaults to 255
(src/src/encode.rs line 53). -/
def toPixels3 : List Nat → List Pixel
  | r :: g :: b :: rest => ⟨r, g, b, 255⟩ :: toPixels3 rest
  | _ => []

/-- Raw chunks of a 4-channel buffer. -/
def toPixels4 : List Nat → List Pixel
  | r :: g :: b :: a :: rest => ⟨r, g, b, a⟩ :: toPixels4 rest
  | _ => []

/-- chunks_exact over the raw buffer, as pixels. -/
def toPixels (c : Channels) : List Nat → List Pixel
  | l => match c with
    | .Three => toPixels3 l
    | .Four => toPixels4 l

/-- The initial cache of 64 default pixels. -/
def initCache : List Pixel := List.replicate 64 Pixel.default

/-- qoi_encode from src/src/encode.rs lines 26-196 against a destination
buffer of length `destLen`.  The result is `none` when the encoder would
write past the end of the destination (a Rust panic: the source's writes move
monotonically rightward apart from the backfilled COLOR tag, which sits below
the already-written component bytes, so the call panics exactly when the
total number of bytes to write exceeds `destLen`).  On success the payload is
the list of written bytes; `Ok(dest_pos)` of the source is its length. -/
def qoi_encode (src : List Nat) (width height : Nat) (channels : Channels)
    (colour_space : Nat) (destLen : Nat) :
    Option (Except QoiError (List Nat)) :=
  let header := QoiHeader.new width height channels colour_space
  let raw_image_size := header.raw_image_size channels
  if raw_image_size < channels.len ∨ src.length < raw_image_size then
    some (.error .InputSize)
  else
    let src2 := src.take raw_image_size
    let bytes := header.to_array
      ++ encLoop (toPixels channels src2) initCache (Pixel.new 0 0 0 255) 0
      ++ List.replicate PADDING 0
    if destLen < bytes.length then none else some (.ok bytes)

/-- qoi_encode_to_vec from src/src/encode.rs lines 198-220: saturating size
computation, TooBig ceiling check, then qoi_encode into a vector of that
size, shrunk to the written length. -/
def qoi_encode_to_vec (src : List Nat) (width height : Nat)
    (channels : Channels) (colour_space : Nat) :
    Option (Except QoiError (List Nat)) :=
  let size := saturating_add
    (saturating_add (saturating_mul (saturating_mul width height) channels.len)
      HEADER_SIZE) PADDING
  if size > MAX_SIZE then some (.error .TooBig)
  else
    match qoi_encode src width height channels colour_space size with
    | none => none
    | some (.error e) => some (.error e)
    | some (.ok bytes) => some (.ok bytes)

/-- The nested `get` helper of src/src/decode.rs lines 41-44:
`buf.get(pos).ok_or(QoiError::InputSize)`. -/
def get (buf : List Nat) (pos : Nat) : Except QoiError Nat :=
  match buf.get? pos with
  | some b => .ok b
  | none => .error .InputSize

/-- Decoder state local to one call of qoi_decode (src/src/decode.rs lines
34-38): cache, pending run, current pixel, cursor into the header-stripped
stream. -/
structure DecSt where
  cache : List Pixel
  run : Nat
  pixel : Pixel
  pos : Nat
deriving DecidableEq

/-- The 0-4 conditional component reads of the COLOR branch,
src/src/decode.rs lines 85-105. -/
def colorRead (src : List Nat) (b1 : Nat) (p : Pixel) (pos : Nat) :
    Except QoiError (Pixel × Nat) :=
  match (if b1 &&& 8 > 0 then
      match get src pos with
      | Except.error e => Except.error e
      | Except.ok v => Except.ok ({ p with r := v }, pos + 1)
    else Except.ok (p, pos)) with
  | Except.error e => Except.error e
  | Except.ok s1 =>
    match (if b1 &&& 4 > 0 then
        match get src s1.2 with
        | Except.error e => Except.error e
        | Except.ok v => Except.ok ({ s1.1 with g := v }, s1.2 + 1)
      else Except.ok s1) with
    | Except.error e => Except.error e
    | Except.ok s2 =>
      match (if b1 &&& 2 > 0 then
          match get src s2.2 with
          | Except.error e => Except.error e
          | Except.ok v => Except.ok ({ s2.1 with b := v }, s2.2 + 1)
        else Except.ok s2) with
      | Except.error e => Except.error e
      | Except.ok s3 =>
        if b1 &&& 1 > 0 then
          match get src s3.2 with
          | Except.error e => Except.error e
          | Except.ok v => Except.ok ({ s3.1 with a := v }, s3.2 + 1)
        else Except.ok s3

/-- One iteration of the decoder's per-chunk loop, src/src/decode.rs lines
46-117: the loop-top truncation check, run countdown, and the opcode dispatch
(masks checked in the source's order) followed by the cache refresh
`cache[pixel.cache_index()] = pixel`.  Returns the pixel written to the chunk
and the successor state.  `pp` is `padding_pos`, compared against the
header-relative cursor exactly as in the source. -/
def decodeStep (src : List Nat) (pp : Nat) (st : DecSt) :
    Except QoiError (Pixel × DecSt) :=
  if src.length ≤ st.pos then .error .InputSize
  else if 0 < st.run then
    .ok (st.pixel, ⟨st.cache, st.run - 1, st.pixel, st.pos⟩)
  else if st.pos < pp then
    match get src st.pos with
    | .error e => .error e
    | .ok b1 =>
        let pos1 := st.pos + 1
        if b1 &&& MASK_2 = INDEX then
          let px := st.cache.getD (b1 ^^^ INDEX) Pixel.default
          .ok (px, ⟨st.cache.set px.cache_index px, 0, px, pos1⟩)
        else if b1 &&& MASK_3 = RUN_8 then
          let px := st.pixel
          .ok (px, ⟨st.cache.set px.cache_index px, b1 &&& 0x1f, px, pos1⟩)
        else if b1 &&& MASK_3 = RUN_16 then
          match get src pos1 with
          | .error e => .error e
          | .ok b2 =>
              let px := st.pixel
              .ok (px, ⟨st.cache.set px.cache_index px,
                (((b1 &&& 0x1f) <<< 8) ||| b2) + 32, px, pos1 + 1⟩)
        else if b1 &&& MASK_2 = DIFF_8 then
          let px := ((st.pixel.modify_r (((b1 >>> 4) &&& 0x03 : Nat) - 2)).modify_g
            (((b1 >>> 2) &&& 0x03 : Nat) - 2)).modify_b ((b1 &&& 0x03 : Nat) - 2)
          .ok (px, ⟨st.cache.set px.cache_index px, 0, px, pos1⟩)
        else if b1 &&& MASK_3 = DIFF_16 then
          match get src pos1 with
          | .error e => .error e
          | .ok b2 =>
              let px := ((st.pixel.modify_r ((b1 &&& 0x1f : Nat) - 16)).modify_g
                ((b2 >>> 4 : Nat) - 8)).modify_b ((b2 &&& 0x0f : Nat) - 8)
              .ok (px, ⟨st.cache.set px.cache_index px, 0, px, pos1 + 1⟩)
        else if b1 &&& MASK_4 = DIFF_24 then
          match get src pos1 with
          | .error e => .error e
          | .ok b2 =>
              match get src (pos1 + 1) with
              | .error e => .error e
              | .ok b3 =>
                  let px := (((st.pixel.modify_r
                    (((((b1 &&& 0x0f) <<< 1) ||| (b2 >>> 7)) : Nat) - 16)).modify_g
                    ((((b2 &&& 0x7c) >>> 2) : Nat) - 16)).modify_b
                    (((((b2 &&& 0x03) <<< 3) ||| ((b3 &&& 0xe0) >>> 5)) : Nat) - 16)).modify_a
                    (((b3 &&& 0x1f) : Nat) - 16)
                  .ok (px, ⟨st.cache.set px.cache_index px, 0, px, pos1 + 2⟩)
        else if b1 &&& MASK_4 = COLOR then
          match colorRead src b1 st.pixel pos1 with
          | .error e => .error e
          | .ok (px, pos2) =>
              .ok (px, ⟨st.cache.set px.cache_index px, 0, px, pos2⟩)
        else
          -- No mask matches: the if-chain of the source falls through with
          -- the pixel unchanged (unreachable: the masks are exhaustive).
          let px := st.pixel
          .ok (px, ⟨st.cache.set px.cache_index px, 0, px, pos1⟩)
  else .ok (st.pixel, st)

/-- The decoder's chunk loop (`for chunk in dest.chunks_exact_mut(...)`),
iterated `n` times, collecting the written pixels. -/
def decodeLoop (src : List Nat) (pp : Nat) :
    Nat → DecSt → Except QoiError (List Pixel × DecSt)
  | 0, st => .ok ([], st)
  | n + 1, st =>
      match decodeStep src pp st with
      | .error e => .error e
      | .ok (px, st2) =>
          match decodeLoop src pp n st2 with
          | .error e => .error e
          | .ok (ps, st3) => .ok (px :: ps, st3)

/-- Bytes a decoded pixel contributes to the destination
(src/src/decode.rs lines 110-116): r,g,b and, for four channels, a. -/
def pixelBytes (c : Channels) (p : Pixel) : List Nat :=
  match c with
  | .Three => [p.r, p.g, p.b]
  | .Four => [p.r, p.g, p.b, p.a]

/-- qoi_decode from src/src/decode.rs lines 17-120 against a destination
buffer `dest`: header parse, OutputTooSmall and InputSize guards,
`padding_pos = input.len() - PADDING` (an offset into the full input,
compared against the header-relative cursor exactly as in the source), then
the chunk loop over the whole destination.  The result is the destination
after the call: `⌊dest.len/c⌋` chunks are overwritten, the remainder is
untouched. -/
def qoi_decode (input : List Nat) (channels : Option Channels)
    (dest : List Nat) : Except QoiError (List Nat) :=
  match QoiHeader.new_from_slice input with
  | .error e => .error e
  | .ok header =>
      let c := channels.getD header.channels
      if dest.length < header.raw_image_size c then .error .OutputTooSmall
      else if input.length < HEADER_SIZE + PADDING then .error .InputSize
      else
        let padding_pos := input.length - PADDING
        let src := input.drop HEADER_SIZE
        let n := dest.length / c.len
        match decodeLoop src padding_pos n
          ⟨initCache, 0, Pixel.new 0 0 0 255, 0⟩ with
        | .error e => .error e
        | .ok (pixels, _) =>
            .ok ((pixels.map (pixelBytes c)).flatten ++ dest.drop (n * c.len))

/-- qoi_decode_to_vec from src/src/decode.rs lines 122-134: header parse,
TooBig ceiling check, allocation of raw_image_size zero bytes, then
qoi_decode with the resolved channel count. -/
def qoi_decode_to_vec (input : List Nat) (channels : Option Channels) :
    Except QoiError (List Nat) :=
  match QoiHeader.new_from_slice input with
  | .error e => .error e
  | .ok header =>
      let c := channels.getD header.channels
      if header.raw_image_size c > MAX_SIZE then .error .TooBig
      else qoi_decode input (some c)
        (List.replicate (header.raw_image_size c) 0)

/-- load_qoi_header from src/src/decode.rs lines 136-138. -/
def load_qoi_header (input : List Nat) : Except QoiError QoiHeader :=
  QoiHeader.new_from_slice input

/-- Modelled from the spec, for comparison with the source's
`QoiHeader.raw_image_size`: "raw_image_size = width * height * channel_count,
computed with saturating multiplication to avoid integer overflow on
adversarial headers". -/
def raw_image_size_spec (h : QoiHeader) (channels : Channels) : Nat :=
  saturating_mul (saturating_mul h.width h.height) channels.len


/-- Relation between the encoder's cache and the decoder's cache during the
round trip.  They agree on every slot except possibly the slot of the initial
previous pixel (0,0,0,255): the decoder's cache-refresh on a run opcode can
store the initial pixel there while the encoder's cache still holds the
default pixel (the encoder never consults a slot in that state, because a
matching pixel would have to hash to the slot). -/
def CacheInv (cacheE cacheD : List Pixel) : Prop :=
  ∀ i < 64, cacheD.getD i Pixel.default = cacheE.getD i Pixel.default
    ∨ (cacheE.getD i Pixel.default = Pixel.default
       ∧ cacheD.getD i Pixel.default = Pixel.new 0 0 0 255
       ∧ i = (Pixel.new 0 0 0 255).cache_index)

/-- Relation between the encoder's cache and its previous pixel: the previous
pixel sits in its own cache slot, except before the first opcode is emitted,
when it is the initial pixel and its slot is still default. -/
def PrevInv (cacheE : List Pixel) (prev : Pixel) : Prop :=
  cacheE.getD prev.cache_index Pixel.default = prev
  ∨ (prev = Pixel.new 0 0 0 255
     ∧ cacheE.getD (Pixel.new 0 0 0 255).cache_index Pixel.default
       = Pixel.default)

/-! Claim theorems and supporting lemmas. -/

/-- C5.  The claim says `raw_image_size` is computed with saturating
multiplication and never overflows.  The code at src/src/lib.rs lines 179-182
multiplies with plain usize `*`, which wraps in release builds: on the
adversarial header width = height = 2^31 with four channels the product
2^64 wraps to 0, where the spec-mandated saturating computation yields
usize::MAX.  (In a debug build the same input aborts with an overflow panic,
contradicting the no-panic obligation.) -/
theorem C5_raw_image_size_wraps :
    (QoiHeader.new (2 ^ 31) (2 ^ 31) Channels.Four 0).raw_image_size
        Channels.Four = 0
    ∧ raw_image_size_spec (QoiHeader.new (2 ^ 31) (2 ^ 31) Channels.Four 0)
        Channels.Four = 2 ^ 64 - 1
    ∧ (0 : Nat) ≠ 2 ^ 64 - 1 := by
  refine ⟨by decide, by decide, by decide⟩

/-- C2.  The claim says qoi_encode_to_vec never panics.  The destination it
allocates holds width*height*channels + 14 + 4 bytes, but a literal-color
opcode spends up to channels+1 bytes on a single pixel: encoding the 1x1
three-channel image [128,128,128] writes 22 bytes into the 21-byte vector,
an out-of-bounds slice write, i.e. a Rust panic (`none` in this model). -/
theorem C2_qoi_encode_to_vec_panics :
    qoi_encode_to_vec [128, 128, 128] 1 1 Channels.Three 0 = none := by
  decide

/-- C4.  The claim says that when the opcode cursor reaches the footer
boundary with pixels still expected, the current pixel is repeated, no
further input is consumed, and the call succeeds.  `padding_pos` is
`input.len() - 4`, an offset into the whole file, but the cursor it bounds is
relative to the header-stripped stream, so the bound never bites: the decoder
keeps consuming the footer bytes as opcodes and fails with InputSize once the
input is exhausted.  Concretely, for a stream declaring 6 pixels whose opcode
section yields one pixel (10,20,30), the call returns InputSize instead of
succeeding; for a stream declaring 2 pixels it consumes a zero footer byte as
an index opcode and emits the cached pixel (0,0,0) instead of repeating
(10,20,30). -/
theorem C4_exhaustion_diverges :
    qoi_decode_to_vec
        ([113, 111, 105, 102, 0, 0, 0, 6, 0, 0, 0, 1, 3, 0]
          ++ [254, 10, 20, 30] ++ [0, 0, 0, 0]) (some Channels.Three)
      = .error .InputSize
    ∧ qoi_decode_to_vec
        ([113, 111, 105, 102, 0, 0, 0, 2, 0, 0, 0, 1, 3, 0]
          ++ [254, 10, 20, 30] ++ [0, 0, 0, 0]) (some Channels.Three)
      = .ok [10, 20, 30, 0, 0, 0] := by
  refine ⟨by decide, by decide⟩

/-- C6.  Both allocating variants enforce the 1 GiB ceiling before
allocating: qoi_encode_to_vec rejects with TooBig whenever
width*height*channels + header size + padding exceeds it (the saturating size
it computes exceeds MAX_SIZE exactly when the exact product does), and
qoi_decode_to_vec rejects with TooBig whenever the parsed header's
raw_image_size for the resolved channel count exceeds it. -/
theorem C6_too_big_ceiling :
    (∀ (src : List Nat) (width height : Nat) (channels : Channels)
        (colour_space : Nat),
      MAX_SIZE < width * height * channels.len + HEADER_SIZE + PADDING →
      qoi_encode_to_vec src width height channels colour_space
        = some (.error .TooBig))
    ∧ (∀ (input : List Nat) (channels : Option Channels) (header : QoiHeader),
      QoiHeader.new_from_slice input = .ok header →
      MAX_SIZE < header.raw_image_size (channels.getD header.channels) →
      qoi_decode_to_vec input channels = .error .TooBig) := by
  constructor
  · intro src width height channels colour_space hbig
    rw [qoi_encode_to_vec, if_pos]
    simp only [saturating_add, saturating_mul, USIZE_MOD, MAX_SIZE,
      HEADER_SIZE, PADDING] at hbig ⊢
    generalize width * height = A at hbig ⊢
    cases channels <;> simp only [Channels.len] at hbig ⊢ <;> omega
  · intro input channels header hparse hbig
    rw [qoi_decode_to_vec, hparse]
    simp only [hbig, gt_iff_lt, if_pos]

/-- C6 witness: a 65536 x 65536 four-channel request exceeds the gigabyte
ceiling on both paths. -/
theorem C6_too_big_ceiling_witness :
    qoi_encode_to_vec [] 65536 65536 Channels.Four 0 = some (.error .TooBig)
    ∧ qoi_decode_to_vec
        [113, 111, 105, 102, 0, 1, 0, 0, 0, 1, 0, 0, 4, 0] none
      = .error .TooBig := by
  constructor
  · exact C6_too_big_ceiling.1 [] 65536 65536 Channels.Four 0 (by decide)
  · exact C6_too_big_ceiling.2 _ none
      (QoiHeader.new 65536 65536 Channels.Four 0) (by decide) (by decide)

/-- C7 counterexample.  The claim as stated demands IncorrectHeaderMagic for
every buffer whose first 4 bytes are not the magic tag, but the length check
runs first: the 4-byte buffer [0,0,0,0] (first 4 bytes not the magic) yields
InputSmallerThanHeader, not IncorrectHeaderMagic. -/
theorem C7_short_wrong_magic_counterexample :
    [0, 0, 0, 0].take 4 ≠ [113, 111, 105, 102]
    ∧ qoi_decode_to_vec [0, 0, 0, 0] (some Channels.Three)
      = .error .InputSmallerThanHeader
    ∧ QoiError.InputSmallerThanHeader ≠ QoiError.IncorrectHeaderMagic := by
  refine ⟨by decide, by decide, by decide⟩

/-- C7 amended: a buffer of at least header size whose first 4 bytes are not
the magic tag yields IncorrectHeaderMagic regardless of remaining content; a
shorter source yields InputSmallerThanHeader regardless of magic; decoding
into a destination shorter than raw_image_size yields OutputTooSmall;
encoding from a source shorter than raw_image_size (width*height*channels as
the code computes it) yields InputSize. -/
theorem C7_validation_errors :
    (∀ (input : List Nat) (channels : Option Channels),
      HEADER_SIZE ≤ input.length →
      input.take 4 ≠ [113, 111, 105, 102] →
      qoi_decode_to_vec input channels = .error .IncorrectHeaderMagic)
    ∧ (∀ (input : List Nat) (channels : Option Channels),
      input.length < HEADER_SIZE →
      qoi_decode_to_vec input channels = .error .InputSmallerThanHeader)
    ∧ (∀ (input : List Nat) (channels : Option Channels) (dest : List Nat)
        (header : QoiHeader),
      QoiHeader.new_from_slice input = .ok header →
      dest.length < header.raw_image_size (channels.getD header.channels) →
      qoi_decode input channels dest = .error .OutputTooSmall)
    ∧ (∀ (src : List Nat) (width height : Nat) (channels : Channels)
        (colour_space destLen : Nat),
      src.length
          < (QoiHeader.new width height channels colour_space).raw_image_size
            channels →
      qoi_encode src width height channels colour_space destLen
        = some (.error .InputSize)) := by
  refine ⟨?_, ?_, ?_, ?_⟩
  · intro input channels hlen hmagic
    have hp : QoiHeader.new_from_slice input = .error .IncorrectHeaderMagic := by
      rw [QoiHeader.new_from_slice, if_neg (by omega), if_pos hmagic]
    rw [qoi_decode_to_vec, hp]
  · intro input channels hlen
    have hp : QoiHeader.new_from_slice input
        = .error .InputSmallerThanHeader := by
      rw [QoiHeader.new_from_slice, if_pos hlen]
    rw [qoi_decode_to_vec, hp]
  · intro input channels dest header hparse hlt
    rw [qoi_decode, hparse]
    simp [hlt]
  · intro src width height channels colour_space destLen hlt
    rw [qoi_encode, if_pos (Or.inr hlt)]

/-- C7 amended witness: the four clauses at concrete inputs. -/
theorem C7_validation_errors_witness :
    qoi_decode_to_vec [0, 0, 0, 0, 0, 0, 0, 0, 0, 0, 0, 0, 0, 0] none
      = .error .IncorrectHeaderMagic
    ∧ qoi_decode_to_vec [113, 111, 105, 102] none
      = .error .InputSmallerThanHeader
    ∧ qoi_decode [113, 111, 105, 102, 0, 0, 0, 1, 0, 0, 0, 1, 3, 0, 0, 0, 0, 0]
        none [] = .error .OutputTooSmall
    ∧ qoi_encode [1, 2] 1 1 Channels.Three 0 21 = some (.error .InputSize) := by
  refine ⟨?_, ?_, ?_, ?_⟩
  · exact C7_validation_errors.1 _ none (by decide) (by decide)
  · exact C7_validation_errors.2.1 _ none (by decide)
  · exact C7_validation_errors.2.2.1 _ none []
      (QoiHeader.new 1 1 Channels.Three 0) (by decide) (by decide)
  · exact C7_validation_errors.2.2.2 [1, 2] 1 1 Channels.Three 0 21 (by decide)

/-- C3 counterexample.  The claim says a successful decode writes exactly
width*height*output_channels bytes, leaves larger destinations untouched
beyond that, and that a larger destination does not change the result.  The
chunk loop runs over the whole destination: for a valid 1x1 three-channel
stream, an exactly-sized destination decodes to [10,20,30]; a 6-byte
destination also overwrites bytes 3..5 (the footer byte 0 is consumed as an
index opcode, emitting the cached pixel (0,0,0)); an 18-byte destination
makes the same call fail with InputSize. -/
theorem C3_whole_dest_counterexample :
    qoi_decode
        [113, 111, 105, 102, 0, 0, 0, 1, 0, 0, 0, 1, 3, 0, 254, 10, 20, 30,
          0, 0, 0, 0] (some Channels.Three) [7, 7, 7] = .ok [10, 20, 30]
    ∧ qoi_decode
        [113, 111, 105, 102, 0, 0, 0, 1, 0, 0, 0, 1, 3, 0, 254, 10, 20, 30,
          0, 0, 0, 0] (some Channels.Three) [7, 7, 7, 7, 7, 7]
      = .ok [10, 20, 30, 0, 0, 0]
    ∧ qoi_decode
        [113, 111, 105, 102, 0, 0, 0, 1, 0, 0, 0, 1, 3, 0, 254, 10, 20, 30,
          0, 0, 0, 0] (some Channels.Three)
        [7, 7, 7, 7, 7, 7, 7, 7, 7, 7, 7, 7, 7, 7, 7, 7, 7, 7]
      = .error .InputSize := by
  refine ⟨by decide, by decide, by decide⟩

/-- A successful decode loop over n chunks yields exactly n pixels. -/
theorem decodeLoop_length {src : List Nat} {pp : Nat} :
    ∀ {n : Nat} {st : DecSt} {ps : List Pixel} {st2 : DecSt},
      decodeLoop src pp n st = .ok (ps, st2) → ps.length = n := by
  intro n
  induction n with
  | zero =>
      intro st ps st2 h
      rw [decodeLoop] at h
      cases h
      rfl
  | succ n ih =>
      intro st ps st2 h
      rw [decodeLoop] at h
      split at h
      · cases h
      · split at h
        · cases h
        · rename_i hl
          cases h
          simp [ih hl]

/-- Each decoded pixel contributes exactly `c.len` bytes. -/
theorem pixelBytes_length (c : Channels) (p : Pixel) :
    (pixelBytes c p).length = c.len := by
  cases c <;> rfl

/-- Total length of the bytes written for a pixel list. -/
theorem flatten_pixelBytes_length (c : Channels) (ps : List Pixel) :
    ((ps.map (pixelBytes c)).flatten).length = ps.length * c.len := by
  induction ps with
  | nil => simp
  | cons p rest ih =>
      simp [ih, pixelBytes_length, Nat.succ_mul, Nat.add_comm]

/-- C3 amended: a successful qoi_decode returns a buffer of the
destination's length in which the first ⌊dest.len/oc⌋*oc bytes are the
decoded data and the bytes from index ⌊dest.len/oc⌋*oc on are the
destination's own (the whole destination is filled in strides of oc, only
the sub-stride remainder is untouched). -/
theorem C3_decode_frame_effect :
    ∀ (input : List Nat) (channels : Option Channels) (dest out : List Nat)
      (header : QoiHeader),
      QoiHeader.new_from_slice input = .ok header →
      qoi_decode input channels dest = .ok out →
      out.length = dest.length
      ∧ out.drop (dest.length / (channels.getD header.channels).len
            * (channels.getD header.channels).len)
        = dest.drop (dest.length / (channels.getD header.channels).len
            * (channels.getD header.channels).len) := by
  intro input channels dest out header hparse hdec
  rw [qoi_decode, hparse] at hdec
  simp only at hdec
  split at hdec
  · cases hdec
  · split at hdec
    · cases hdec
    · cases hl : decodeLoop (input.drop HEADER_SIZE) (input.length - PADDING)
        (dest.length / (channels.getD header.channels).len)
        ⟨initCache, 0, Pixel.new 0 0 0 255, 0⟩ with
      | error e => rw [hl] at hdec; cases hdec
      | ok v =>
          rw [hl] at hdec
          cases hdec
          have hlen : ((v.1.map (pixelBytes (channels.getD header.channels))).flatten).length
              = dest.length / (channels.getD header.channels).len
                * (channels.getD header.channels).len := by
            rw [flatten_pixelBytes_length, decodeLoop_length hl]
          constructor
          · have hle : dest.length / (channels.getD header.channels).len
                * (channels.getD header.channels).len ≤ dest.length :=
              Nat.div_mul_le_self _ _
            simp [hlen]
            omega
          · rw [← hlen, List.drop_left]

/-- C3 amended witness: decoding the 1x1 stream into a 4-byte destination
with 3 output channels fills bytes 0..2 and leaves byte 3 (= 7) alone. -/
theorem C3_decode_frame_effect_witness :
    ([10, 20, 30, 7] : List Nat).length = ([7, 7, 7, 7] : List Nat).length
    ∧ ([10, 20, 30, 7] : List Nat).drop (4 / 3 * 3)
      = ([7, 7, 7, 7] : List Nat).drop (4 / 3 * 3) :=
  C3_decode_frame_effect
    [113, 111, 105, 102, 0, 0, 0, 1, 0, 0, 0, 1, 3, 0, 254, 10, 20, 30,
      0, 0, 0, 0] (some Channels.Three) [7, 7, 7, 7] [10, 20, 30, 7]
    (QoiHeader.new 1 1 Channels.Three 0) (by decide) (by decide)

/-! List and byte-extraction helper lemmas. -/

/-- Setting a list slot to its current value is the identity. -/
theorem set_getD_self {α : Type} (l : List α) (i : Nat) (d : α)
    (h : i < l.length) : l.set i (l.getD i d) = l := by
  apply List.ext_getElem?
  intro j
  by_cases hij : j = i
  · subst hij
    rw [List.getElem?_set_self']
    rw [List.getD_eq_getElem?_getD]
    cases hx : l[j]? with
    | none => simp [List.getElem?_eq_none_iff] at hx; omega
    | some v => simp
  · rw [List.getElem?_set_ne (by omega)]

/-- Reading the byte right after a known prefix. -/
theorem get_at (pre rest : List Nat) (b : Nat) :
    get (pre ++ b :: rest) pre.length = .ok b := by
  rw [get, List.get?_eq_getElem?, List.getElem?_append_right (Nat.le_refl _)]
  simp

/-- Reading one byte past a known prefix. -/
theorem get_at1 (pre rest : List Nat) (b1 b2 : Nat) :
    get (pre ++ b1 :: b2 :: rest) (pre.length + 1) = .ok b2 := by
  have h : pre ++ b1 :: b2 :: rest = (pre ++ [b1]) ++ b2 :: rest := by simp
  have h2 : pre.length + 1 = (pre ++ [b1]).length := by simp
  rw [h, h2, get_at]

/-- Reading two bytes past a known prefix. -/
theorem get_at2 (pre rest : List Nat) (b1 b2 b3 : Nat) :
    get (pre ++ b1 :: b2 :: b3 :: rest) (pre.length + 2) = .ok b3 := by
  have h : pre ++ b1 :: b2 :: b3 :: rest = (pre ++ [b1, b2]) ++ b3 :: rest := by
    simp
  have h2 : pre.length + 2 = (pre ++ [b1, b2]).length := by simp
  rw [h, h2, get_at]

/-- Reading three bytes past a known prefix. -/
theorem get_at3 (pre rest : List Nat) (b1 b2 b3 b4 : Nat) :
    get (pre ++ b1 :: b2 :: b3 :: b4 :: rest) (pre.length + 3) = .ok b4 := by
  have h : pre ++ b1 :: b2 :: b3 :: b4 :: rest
      = (pre ++ [b1, b2, b3]) ++ b4 :: rest := by simp
  have h2 : pre.length + 3 = (pre ++ [b1, b2, b3]).length := by simp
  rw [h, h2, get_at]

/-! Bit-level facts about the opcode bytes, proved by bounded enumeration. -/

theorem bits_index : ∀ v < 64, (0 ||| v) &&& 192 = 0 ∧ (0 ||| v) ^^^ 0 = v := by
  decide

theorem bits_run8 : ∀ v < 32,
    ((64 ||| v) &&& 192 ≠ 0) ∧ ((64 ||| v) &&& 224 = 64)
    ∧ ((64 ||| v) &&& 31 = v) := by
  decide

theorem bits_run16 : ∀ v < 32,
    ((96 ||| v) &&& 192 ≠ 0) ∧ ((96 ||| v) &&& 224 ≠ 64)
    ∧ ((96 ||| v) &&& 224 = 96) ∧ ((96 ||| v) &&& 31 = v) := by
  decide

theorem bits_shift8 : ∀ a < 32, ∀ b < 256, (a <<< 8) ||| b = a * 256 + b := by
  decide

theorem bits_diff8_mask : ∀ a < 4, ∀ b < 4, ∀ c < 4,
    ((128 ||| (a * 16 % 256) ||| (b * 4 % 256) ||| (c % 256)) &&& 192 ≠ 0)
    ∧ ((128 ||| (a * 16 % 256) ||| (b * 4 % 256) ||| (c % 256)) &&& 224 ≠ 64)
    ∧ ((128 ||| (a * 16 % 256) ||| (b * 4 % 256) ||| (c % 256)) &&& 224 ≠ 96)
    ∧ ((128 ||| (a * 16 % 256) ||| (b * 4 % 256) ||| (c % 256)) &&& 192 = 128) := by
  decide

theorem bits_diff8_extract : ∀ a < 4, ∀ b < 4, ∀ c < 4,
    (((128 ||| (a * 16 % 256) ||| (b * 4 % 256) ||| (c % 256)) >>> 4) &&& 3 = a)
    ∧ (((128 ||| (a * 16 % 256) ||| (b * 4 % 256) ||| (c % 256)) >>> 2) &&& 3 = b)
    ∧ ((128 ||| (a * 16 % 256) ||| (b * 4 % 256) ||| (c % 256)) &&& 3 = c) := by
  decide

theorem bits_diff16_b0 : ∀ v < 32,
    ((192 ||| (v % 256)) &&& 192 = 192) ∧ ((192 ||| (v % 256)) &&& 224 = 192)
    ∧ ((192 ||| (v % 256)) &&& 31 = v) := by
  decide

theorem bits_diff16_b1 : ∀ g < 16, ∀ h < 16,
    (((g * 16 % 256) ||| (h % 256)) >>> 4 = g)
    ∧ (((g * 16 % 256) ||| (h % 256)) &&& 15 = h) := by
  decide

theorem bits_diff24_b0 : ∀ w < 16,
    ((224 ||| (w % 256)) &&& 192 = 192) ∧ ((224 ||| (w % 256)) &&& 224 = 224)
    ∧ ((224 ||| (w % 256)) &&& 240 = 224) ∧ ((224 ||| (w % 256)) &&& 15 = w) := by
  decide

theorem bits_mul128 : ∀ a < 32, a * 128 % 256 = a % 2 * 128 := by decide

theorem bits_mul32 : ∀ c < 32, c * 32 % 256 = c % 8 * 32 := by decide

theorem bits_diff24_b1 : ∀ a2 < 2, ∀ b < 32, ∀ e < 4,
    (((a2 * 128) ||| (b * 4 % 256) ||| (e % 256)) >>> 7 = a2)
    ∧ ((((a2 * 128) ||| (b * 4 % 256) ||| (e % 256)) &&& 124) >>> 2 = b)
    ∧ (((a2 * 128) ||| (b * 4 % 256) ||| (e % 256)) &&& 3 = e) := by
  decide

theorem bits_diff24_b2 : ∀ c8 < 8, ∀ d < 32,
    ((((c8 * 32) ||| (d % 256)) &&& 224) >>> 5 = c8)
    ∧ (((c8 * 32) ||| (d % 256)) &&& 31 = d) := by
  decide

theorem bits_recombine_half : ∀ a < 32, ((a / 2) <<< 1) ||| (a % 2) = a := by
  decide

theorem bits_recombine_eighth : ∀ c < 32, ((c / 8) <<< 3) ||| (c % 8) = c := by
  decide

/-- u8cast of a Nat is reduction modulo 256. -/
theorem u8cast_natCast (n : Nat) : u8cast (n : Int) = n % 256 := by
  rw [u8cast,
    show ((n : Int)).emod 256 = ((n % 256 : Nat) : Int) by push_cast; ring_nf; rfl]
  exact Int.toNat_natCast _

/-! Decoder single-step evaluation lemmas for each opcode shape. -/

theorem decodeLoop_succ_ok {src : List Nat} {pp n : Nat} {st : DecSt} {px : Pixel}
    {st2 : DecSt} {ps : List Pixel} {st3 : DecSt}
    (h1 : decodeStep src pp st = .ok (px, st2))
    (h2 : decodeLoop src pp n st2 = .ok (ps, st3)) :
    decodeLoop src pp (n + 1) st = .ok (px :: ps, st3) := by
  rw [decodeLoop, h1]
  show (match decodeLoop src pp n st2 with
    | Except.error e => Except.error e
    | Except.ok (ps, st3) => Except.ok (px :: ps, st3)) = _
  rw [h2]

theorem decodeStep_at_run8 (src pre rest : List Nat) (pp v : Nat)
    (cache : List Pixel) (px0 : Pixel)
    (hsrc : src = pre ++ (64 ||| v) :: rest) (hv : v < 32)
    (hpp : src.length ≤ pp) :
    decodeStep src pp ⟨cache, 0, px0, pre.length⟩
      = .ok (px0, ⟨cache.set px0.cache_index px0, v, px0, pre.length + 1⟩) := by
  subst hsrc
  have h1 : ¬ ((pre ++ (64 ||| v) :: rest).length ≤ pre.length) := by simp
  have h2 : pre.length < pp := by simp at hpp; omega
  have hb := bits_run8 v hv
  rw [decodeStep, if_neg h1]
  simp only [MASK_2, MASK_3, MASK_4, INDEX, RUN_8, RUN_16, DIFF_8, DIFF_16,
    DIFF_24, COLOR]
  rw [if_neg (by simp), if_pos h2, get_at]
  simp only [if_neg hb.1, if_pos hb.2.1]
  rw [show (64 ||| v) &&& 0x1f = v from hb.2.2]

theorem except_bind_ok {ε α β : Type} (a : α) (f : α → Except ε β) :
    (Except.ok a : Except ε α) >>= f = f a := rfl

theorem except_pure {ε α : Type} (a : α) :
    (pure a : Except ε α) = .ok a := rfl

theorem decodeStep_at_index (src pre rest : List Nat) (pp v : Nat)
    (cache : List Pixel) (px0 : Pixel)
    (hsrc : src = pre ++ (0 ||| v) :: rest) (hv : v < 64)
    (hpp : src.length ≤ pp) :
    decodeStep src pp ⟨cache, 0, px0, pre.length⟩
      = .ok (cache.getD v Pixel.default,
          ⟨cache.set (cache.getD v Pixel.default).cache_index
              (cache.getD v Pixel.default), 0,
            cache.getD v Pixel.default, pre.length + 1⟩) := by
  subst hsrc
  have h1 : ¬ ((pre ++ (0 ||| v) :: rest).length ≤ pre.length) := by simp
  have h2 : pre.length < pp := by simp at hpp; omega
  have hb := bits_index v hv
  rw [decodeStep, if_neg h1]
  simp only [MASK_2, MASK_3, MASK_4, INDEX, RUN_8, RUN_16, DIFF_8, DIFF_16,
    DIFF_24, COLOR]
  rw [if_neg (by simp), if_pos h2, get_at]
  simp only [if_pos hb.1]
  rw [show (0 ||| v) ^^^ 0 = v from hb.2]

theorem decodeStep_at_run16 (src pre rest : List Nat) (pp w m2 : Nat)
    (cache : List Pixel) (px0 : Pixel)
    (hsrc : src = pre ++ (96 ||| w) :: m2 :: rest) (hw : w < 32)
    (hm : m2 < 256) (hpp : src.length ≤ pp) :
    decodeStep src pp ⟨cache, 0, px0, pre.length⟩
      = .ok (px0, ⟨cache.set px0.cache_index px0, w * 256 + m2 + 32, px0,
          pre.length + 1 + 1⟩) := by
  subst hsrc
  have h1 : ¬ ((pre ++ (96 ||| w) :: m2 :: rest).length ≤ pre.length) := by simp
  have h2 : pre.length < pp := by simp at hpp; omega
  have hb := bits_run16 w hw
  rw [decodeStep, if_neg h1]
  simp only [MASK_2, MASK_3, MASK_4, INDEX, RUN_8, RUN_16, DIFF_8, DIFF_16,
    DIFF_24, COLOR]
  rw [if_neg (by simp), if_pos h2, get_at]
  simp only [if_neg hb.1, if_neg hb.2.1, if_pos hb.2.2.1]
  rw [get_at1]
  rw [show (96 ||| w) &&& 0x1f = w from hb.2.2.2]
  show Except.ok (px0, (⟨cache.set px0.cache_index px0, (w <<< 8 ||| m2) + 32,
    px0, pre.length + 1 + 1⟩ : DecSt)) = _
  rw [bits_shift8 w hw m2 hm]

theorem decodeStep_at_diff8 (src pre rest : List Nat) (pp a b c : Nat)
    (cache : List Pixel) (px0 : Pixel)
    (hsrc : src = pre
      ++ (128 ||| (a * 16 % 256) ||| (b * 4 % 256) ||| (c % 256)) :: rest)
    (ha : a < 4) (hb : b < 4) (hc : c < 4) (hpp : src.length ≤ pp) :
    decodeStep src pp ⟨cache, 0, px0, pre.length⟩
      = .ok (((px0.modify_r ((a : Int) - 2)).modify_g ((b : Int) - 2)).modify_b
            ((c : Int) - 2),
          ⟨cache.set
              (((px0.modify_r ((a : Int) - 2)).modify_g
                ((b : Int) - 2)).modify_b ((c : Int) - 2)).cache_index
              (((px0.modify_r ((a : Int) - 2)).modify_g
                ((b : Int) - 2)).modify_b ((c : Int) - 2)), 0,
            ((px0.modify_r ((a : Int) - 2)).modify_g ((b : Int) - 2)).modify_b
              ((c : Int) - 2), pre.length + 1⟩) := by
  subst hsrc
  have h1 : ¬ ((pre
      ++ (128 ||| (a * 16 % 256) ||| (b * 4 % 256) ||| (c % 256)) :: rest).length
      ≤ pre.length) := by simp
  have h2 : pre.length < pp := by simp at hpp; omega
  have hm := bits_diff8_mask a ha b hb c hc
  have he := bits_diff8_extract a ha b hb c hc
  rw [decodeStep, if_neg h1]
  simp only [MASK_2, MASK_3, MASK_4, INDEX, RUN_8, RUN_16, DIFF_8, DIFF_16,
    DIFF_24, COLOR]
  rw [if_neg (by simp), if_pos h2, get_at]
  simp only [if_neg hm.1, if_neg hm.2.1, if_neg hm.2.2.1, if_pos hm.2.2.2]
  rw [show ((128 ||| (a * 16 % 256) ||| (b * 4 % 256) ||| (c % 256)) >>> 4)
      &&& 0x03 = a from he.1,
    show ((128 ||| (a * 16 % 256) ||| (b * 4 % 256) ||| (c % 256)) >>> 2)
      &&& 0x03 = b from he.2.1,
    show (128 ||| (a * 16 % 256) ||| (b * 4 % 256) ||| (c % 256)) &&& 0x03 = c
      from he.2.2]

theorem decodeStep_at_diff16 (src pre rest : List Nat) (pp v g h : Nat)
    (cache : List Pixel) (px0 : Pixel)
    (hsrc : src = pre
      ++ (192 ||| (v % 256)) :: ((g * 16 % 256) ||| (h % 256)) :: rest)
    (hv : v < 32) (hg : g < 16) (hh : h < 16) (hpp : src.length ≤ pp) :
    decodeStep src pp ⟨cache, 0, px0, pre.length⟩
      = .ok (((px0.modify_r ((v : Int) - 16)).modify_g ((g : Int) - 8)).modify_b
            ((h : Int) - 8),
          ⟨cache.set
              (((px0.modify_r ((v : Int) - 16)).modify_g
                ((g : Int) - 8)).modify_b ((h : Int) - 8)).cache_index
              (((px0.modify_r ((v : Int) - 16)).modify_g
                ((g : Int) - 8)).modify_b ((h : Int) - 8)), 0,
            ((px0.modify_r ((v : Int) - 16)).modify_g ((g : Int) - 8)).modify_b
              ((h : Int) - 8), pre.length + 1 + 1⟩) := by
  subst hsrc
  have h1 : ¬ ((pre
      ++ (192 ||| (v % 256)) :: ((g * 16 % 256) ||| (h % 256)) :: rest).length
      ≤ pre.length) := by simp
  have h2 : pre.length < pp := by simp at hpp; omega
  have hb0 := bits_diff16_b0 v hv
  have hb1 := bits_diff16_b1 g hg h hh
  have hn1 : (192 ||| (v % 256)) &&& 192 ≠ 0 := by rw [hb0.1]; decide
  have hn2 : (192 ||| (v % 256)) &&& 224 ≠ 64 := by rw [hb0.2.1]; decide
  have hn3 : (192 ||| (v % 256)) &&& 224 ≠ 96 := by rw [hb0.2.1]; decide
  have hn4 : (192 ||| (v % 256)) &&& 192 ≠ 128 := by rw [hb0.1]; decide
  rw [decodeStep, if_neg h1]
  simp only [MASK_2, MASK_3, MASK_4, INDEX, RUN_8, RUN_16, DIFF_8, DIFF_16,
    DIFF_24, COLOR]
  rw [if_neg (by simp), if_pos h2, get_at]
  simp only [if_neg hn1, if_neg hn2, if_neg hn3, if_neg hn4, if_pos hb0.2.1,
    get_at1]
  rw [show (192 ||| (v % 256)) &&& 0x1f = v from hb0.2.2,
    show ((g * 16 % 256) ||| (h % 256)) >>> 4 = g from hb1.1,
    show ((g * 16 % 256) ||| (h % 256)) &&& 0x0f = h from hb1.2]

theorem decodeStep_at_diff24 (src pre rest : List Nat) (pp a b c d : Nat)
    (cache : List Pixel) (px0 : Pixel)
    (hsrc : src = pre ++ (224 ||| (a / 2 % 256))
      :: ((a * 128 % 256) ||| (b * 4 % 256) ||| (c / 8 % 256))
      :: ((c * 32 % 256) ||| (d % 256)) :: rest)
    (ha : a < 32) (hb : b < 32) (hc : c < 32) (hd : d < 32)
    (hpp : src.length ≤ pp) :
    decodeStep src pp ⟨cache, 0, px0, pre.length⟩
      = .ok ((((px0.modify_r ((a : Int) - 16)).modify_g
            ((b : Int) - 16)).modify_b ((c : Int) - 16)).modify_a
            ((d : Int) - 16),
          ⟨cache.set
              ((((px0.modify_r ((a : Int) - 16)).modify_g
                ((b : Int) - 16)).modify_b ((c : Int) - 16)).modify_a
                ((d : Int) - 16)).cache_index
              ((((px0.modify_r ((a : Int) - 16)).modify_g
                ((b : Int) - 16)).modify_b ((c : Int) - 16)).modify_a
                ((d : Int) - 16)), 0,
            (((px0.modify_r ((a : Int) - 16)).modify_g
              ((b : Int) - 16)).modify_b ((c : Int) - 16)).modify_a
              ((d : Int) - 16), pre.length + 1 + 2⟩) := by
  subst hsrc
  have h1 : ¬ ((pre ++ (224 ||| (a / 2 % 256))
      :: ((a * 128 % 256) ||| (b * 4 % 256) ||| (c / 8 % 256))
      :: ((c * 32 % 256) ||| (d % 256)) :: rest).length ≤ pre.length) := by simp
  have h2 : pre.length < pp := by simp at hpp; omega
  have hb0 := bits_diff24_b0 (a / 2) (by omega)
  have hn1 : (224 ||| (a / 2 % 256)) &&& 192 ≠ 0 := by rw [hb0.1]; decide
  have hn2 : (224 ||| (a / 2 % 256)) &&& 224 ≠ 64 := by rw [hb0.2.1]; decide
  have hn3 : (224 ||| (a / 2 % 256)) &&& 224 ≠ 96 := by rw [hb0.2.1]; decide
  have hn4 : (224 ||| (a / 2 % 256)) &&& 192 ≠ 128 := by rw [hb0.1]; decide
  have hn5 : (224 ||| (a / 2 % 256)) &&& 224 ≠ 192 := by rw [hb0.2.1]; decide
  have hget3 : get (pre ++ (224 ||| (a / 2 % 256))
      :: ((a * 128 % 256) ||| (b * 4 % 256) ||| (c / 8 % 256))
      :: ((c * 32 % 256) ||| (d % 256)) :: rest) (pre.length + 1 + 1)
      = .ok ((c * 32 % 256) ||| (d % 256)) := by
    rw [show pre.length + 1 + 1 = pre.length + 2 from rfl, get_at2]
  rw [decodeStep, if_neg h1]
  simp only [MASK_2, MASK_3, MASK_4, INDEX, RUN_8, RUN_16, DIFF_8, DIFF_16,
    DIFF_24, COLOR]
  rw [if_neg (by simp), if_pos h2, get_at]
  simp only [if_neg hn1, if_neg hn2, if_neg hn3, if_neg hn4, if_neg hn5,
    if_pos hb0.2.2.1, get_at1, hget3]
  rw [bits_mul128 a ha, bits_mul32 c hc]
  have he1 := bits_diff24_b1 (a % 2) (by omega) b hb (c / 8) (by omega)
  have he2 := bits_diff24_b2 (c % 8) (by omega) d hd
  rw [show (224 ||| (a / 2 % 256)) &&& 0x0f = a / 2 from hb0.2.2.2,
    show ((a % 2 * 128) ||| (b * 4 % 256) ||| (c / 8 % 256)) >>> 7 = a % 2
      from he1.1,
    show (((a % 2 * 128) ||| (b * 4 % 256) ||| (c / 8 % 256)) &&& 0x7c) >>> 2
      = b from he1.2.1,
    show ((a % 2 * 128) ||| (b * 4 % 256) ||| (c / 8 % 256)) &&& 0x03 = c / 8
      from he1.2.2,
    show (((c % 8 * 32) ||| (d % 256)) &&& 0xe0) >>> 5 = c % 8 from he2.1,
    show ((c % 8 * 32) ||| (d % 256)) &&& 0x1f = d from he2.2,
    bits_recombine_half a ha, bits_recombine_eighth c hc]

theorem colorRead_eval (pre rest : List Nat) (i j k l : Bool) (b1 : Nat)
    (px0 : Pixel) (r g b a : Nat)
    (hi : b1 &&& 8 = cond i 8 0) (hj : b1 &&& 4 = cond j 4 0)
    (hk : b1 &&& 2 = cond k 2 0) (hl : b1 &&& 1 = cond l 1 0) :
    colorRead (pre ++ ((cond i [r] []) ++ (cond j [g] []) ++ (cond k [b] [])
        ++ (cond l [a] []) ++ rest)) b1 px0 pre.length
      = .ok (⟨cond i r px0.r, cond j g px0.g, cond k b px0.b, cond l a px0.a⟩,
          pre.length + (cond i 1 0 + cond j 1 0 + cond k 1 0 + cond l 1 0)) := by
  cases i <;> cases j <;> cases k <;> cases l <;>
    simp only [cond_true, cond_false, List.nil_append, List.append_assoc,
      List.cons_append] at * <;>
    simp only [colorRead, hi, hj, hk, hl] <;>
    norm_num <;>
    simp only [except_bind_ok, except_pure, get_at,
      show ∀ x : List Nat, ∀ y1 y2 : Nat, get (pre ++ y1 :: y2 :: x) (pre.length + 1)
        = .ok y2 from fun x y1 y2 => get_at1 pre x y1 y2,
      show ∀ x : List Nat, ∀ y1 y2 y3 : Nat,
        get (pre ++ y1 :: y2 :: y3 :: x) (pre.length + 2) = .ok y3 from
        fun x y1 y2 y3 => get_at2 pre x y1 y2 y3,
      show ∀ x : List Nat, ∀ y1 y2 y3 y4 : Nat,
        get (pre ++ y1 :: y2 :: y3 :: y4 :: x) (pre.length + 3) = .ok y4 from
        fun x y1 y2 y3 y4 => get_at3 pre x y1 y2 y3 y4]

theorem decodeStep_at_color (src pre rest : List Nat) (pp : Nat)
    (cache : List Pixel) (px0 px1 : Pixel) (b1 : Nat) (comps : List Nat)
    (hm1 : b1 &&& 192 = 192) (hm2 : b1 &&& 224 = 224) (hm3 : b1 &&& 240 = 240)
    (hsrc : src = pre ++ b1 :: (comps ++ rest))
    (hread : colorRead src b1 px0 (pre.length + 1)
      = .ok (px1, pre.length + 1 + comps.length))
    (hpp : src.length ≤ pp) :
    decodeStep src pp ⟨cache, 0, px0, pre.length⟩
      = .ok (px1, ⟨cache.set px1.cache_index px1, 0, px1,
          pre.length + 1 + comps.length⟩) := by
  have h1 : ¬ (src.length ≤ pre.length) := by subst hsrc; simp
  have h2 : pre.length < pp := by subst hsrc; simp at hpp; omega
  have hn1 : b1 &&& 192 ≠ 0 := by rw [hm1]; decide
  have hn2 : b1 &&& 224 ≠ 64 := by rw [hm2]; decide
  have hn3 : b1 &&& 224 ≠ 96 := by rw [hm2]; decide
  have hn4 : b1 &&& 192 ≠ 128 := by rw [hm1]; decide
  have hn5 : b1 &&& 224 ≠ 192 := by rw [hm2]; decide
  have hn6 : b1 &&& 240 ≠ 224 := by rw [hm3]; decide
  have hget : get src pre.length = .ok b1 := by subst hsrc; exact get_at pre _ b1
  rw [decodeStep, if_neg h1]
  simp only [MASK_2, MASK_3, MASK_4, INDEX, RUN_8, RUN_16, DIFF_8, DIFF_16,
    DIFF_24, COLOR]
  rw [if_neg (by simp), if_pos h2, hget]
  simp only [if_neg hn1, if_neg hn2, if_neg hn3, if_neg hn4, if_neg hn5,
    if_neg hn6, if_pos hm3, hread]

theorem decodeStep_countdown (src : List Nat) (pp : Nat) (st : DecSt)
    (hr : 0 < st.run) (hpos : st.pos < src.length) :
    decodeStep src pp st
      = .ok (st.pixel, ⟨st.cache, st.run - 1, st.pixel, st.pos⟩) := by
  rw [decodeStep, if_neg (by omega), if_pos hr]

theorem decodeLoop_countdown (src : List Nat) (pp : Nat) :
    ∀ (r n : Nat) (cache : List Pixel) (px : Pixel) (pos : Nat)
      (ps : List Pixel) (st3 : DecSt),
      pos < src.length →
      decodeLoop src pp n ⟨cache, 0, px, pos⟩ = .ok (ps, st3) →
      decodeLoop src pp (r + n) ⟨cache, r, px, pos⟩
        = .ok (List.replicate r px ++ ps, st3) := by
  intro r
  induction r with
  | zero =>
      intro n cache px pos ps st3 hpos h
      simpa using h
  | succ r ih =>
      intro n cache px pos ps st3 hpos h
      have hstep : decodeStep src pp ⟨cache, r + 1, px, pos⟩
          = .ok (px, ⟨cache, r, px, pos⟩) := by
        have := decodeStep_countdown src pp ⟨cache, r + 1, px, pos⟩
          (by simp) (by simpa using hpos)
        simpa using this
      have hrec := ih n cache px pos ps st3 hpos h
      have := decodeLoop_succ_ok hstep hrec
      rw [show r + 1 + n = (r + n) + 1 from by omega]
      simpa [List.replicate_succ] using this

theorem decodeLoop_flush (src pre rest2 : List Nat) (pp rv n : Nat)
    (cacheD : List Pixel) (prev : Pixel) (ps : List Pixel) (st3 : DecSt)
    (hsrc : src = pre ++ runFlushBytes rv ++ rest2)
    (h1 : 1 ≤ rv) (h2 : rv ≤ 8224) (hrest : 1 ≤ rest2.length)
    (hpp : src.length ≤ pp)
    (hcont : decodeLoop src pp n
        ⟨cacheD.set prev.cache_index prev, 0, prev,
          pre.length + (runFlushBytes rv).length⟩ = .ok (ps, st3)) :
    decodeLoop src pp (rv + n) ⟨cacheD, 0, prev, pre.length⟩
      = .ok (List.replicate rv prev ++ ps, st3) := by
  by_cases hrv : rv < 33
  · -- short run opcode
    have hbytes : runFlushBytes rv = [64 ||| (rv - 1)] := by
      rw [runFlushBytes, if_pos hrv]
      rfl
    rw [hbytes] at hsrc hcont
    have hstep := decodeStep_at_run8 src pre rest2 pp (rv - 1) cacheD prev
      (by simpa using hsrc) (by omega) hpp
    have hposlt : pre.length + 1 < src.length := by
      subst hsrc; simp; omega
    have hcont2 : decodeLoop src pp n
        ⟨cacheD.set prev.cache_index prev, 0, prev, pre.length + 1⟩
        = .ok (ps, st3) := by
      simpa using hcont
    have hcd := decodeLoop_countdown src pp (rv - 1) n
      (cacheD.set prev.cache_index prev) prev (pre.length + 1) ps st3
      hposlt hcont2
    have := decodeLoop_succ_ok hstep hcd
    rw [show rv + n = ((rv - 1) + n) + 1 from by omega]
    have hrep : prev :: (List.replicate (rv - 1) prev ++ ps)
        = List.replicate rv prev ++ ps := by
      rw [show rv = (rv - 1) + 1 from by omega]
      simp [List.replicate_succ]
    rw [← hrep]
    exact this
  · -- long run opcode
    have hm : rv - 33 ≤ 8191 := by omega
    have hw : (rv - 33) >>> 8 % 256 < 32 := by
      rw [Nat.shiftRight_eq_div_pow]
      omega
    have hbytes : runFlushBytes rv
        = [96 ||| ((rv - 33) >>> 8 % 256), (rv - 33) % 256] := by
      rw [runFlushBytes, if_neg hrv]
      rfl
    rw [hbytes] at hsrc hcont
    have hstep := decodeStep_at_run16 src pre rest2 pp ((rv - 33) >>> 8 % 256)
      ((rv - 33) % 256) cacheD prev (by simpa using hsrc) hw (by omega) hpp
    have hrunval : (rv - 33) >>> 8 % 256 * 256 + (rv - 33) % 256 + 32
        = rv - 1 := by
      rw [Nat.shiftRight_eq_div_pow]
      omega
    rw [hrunval] at hstep
    have hposlt : pre.length + 1 + 1 < src.length := by
      subst hsrc; simp; omega
    have hcont2 : decodeLoop src pp n
        ⟨cacheD.set prev.cache_index prev, 0, prev, pre.length + 1 + 1⟩
        = .ok (ps, st3) := by
      simpa using hcont
    have hcd := decodeLoop_countdown src pp (rv - 1) n
      (cacheD.set prev.cache_index prev) prev (pre.length + 1 + 1) ps st3
      hposlt hcont2
    have := decodeLoop_succ_ok hstep hcd
    rw [show rv + n = ((rv - 1) + n) + 1 from by omega]
    have hrep : prev :: (List.replicate (rv - 1) prev ++ ps)
        = List.replicate rv prev ++ ps := by
      rw [show rv = (rv - 1) + 1 from by omega]
      simp [List.replicate_succ]
    rw [← hrep]
    exact this

theorem cache_index_lt (p : Pixel) : p.cache_index < 64 :=
  Nat.mod_lt _ (by decide)

theorem pixel_ext (p q : Pixel) (hr : p.r = q.r) (hg : p.g = q.g)
    (hb : p.b = q.b) (ha : p.a = q.a) : p = q := by
  cases p
  cases q
  simp_all

theorem modify_r_delta (p q : Pixel) (hq : q.r < 256) :
    p.modify_r ((q.r : Int) - (p.r : Int)) = { p with r := q.r } := by
  rw [Pixel.modify_r]
  congr 1
  rw [show (p.r : Int) + ((q.r : Int) - (p.r : Int)) = (q.r : Int) by ring,
    show ((q.r : Int)).emod 256 = ((q.r % 256 : Nat) : Int) by
      push_cast; ring_nf; rfl,
    Int.toNat_natCast]
  exact Nat.mod_eq_of_lt hq

theorem modify_g_delta (p q : Pixel) (hq : q.g < 256) :
    p.modify_g ((q.g : Int) - (p.g : Int)) = { p with g := q.g } := by
  rw [Pixel.modify_g]
  congr 1
  rw [show (p.g : Int) + ((q.g : Int) - (p.g : Int)) = (q.g : Int) by ring,
    show ((q.g : Int)).emod 256 = ((q.g % 256 : Nat) : Int) by
      push_cast; ring_nf; rfl,
    Int.toNat_natCast]
  exact Nat.mod_eq_of_lt hq

theorem modify_b_delta (p q : Pixel) (hq : q.b < 256) :
    p.modify_b ((q.b : Int) - (p.b : Int)) = { p with b := q.b } := by
  rw [Pixel.modify_b]
  congr 1
  rw [show (p.b : Int) + ((q.b : Int) - (p.b : Int)) = (q.b : Int) by ring,
    show ((q.b : Int)).emod 256 = ((q.b % 256 : Nat) : Int) by
      push_cast; ring_nf; rfl,
    Int.toNat_natCast]
  exact Nat.mod_eq_of_lt hq

theorem modify_a_delta (p q : Pixel) (hq : q.a < 256) :
    p.modify_a ((q.a : Int) - (p.a : Int)) = { p with a := q.a } := by
  rw [Pixel.modify_a]
  congr 1
  rw [show (p.a : Int) + ((q.a : Int) - (p.a : Int)) = (q.a : Int) by ring,
    show ((q.a : Int)).emod 256 = ((q.a % 256 : Nat) : Int) by
      push_cast; ring_nf; rfl,
    Int.toNat_natCast]
  exact Nat.mod_eq_of_lt hq

theorem getD_set_eq (l : List Pixel) (i : Nat) (x : Pixel) (h : i < l.length) :
    (l.set i x).getD i Pixel.default = x := by
  rw [List.getD_eq_getElem?_getD, List.getElem?_set_self (by omega)]
  rfl

theorem getD_set_ne (l : List Pixel) (i j : Nat) (x : Pixel) (h : j ≠ i) :
    (l.set i x).getD j Pixel.default = l.getD j Pixel.default := by
  rw [List.getD_eq_getElem?_getD, List.getElem?_set_ne (by omega),
    ← List.getD_eq_getElem?_getD]

theorem cacheInv_refresh (cacheE cacheD : List Pixel) (prev : Pixel)
    (hlD : cacheD.length = 64)
    (hInv : CacheInv cacheE cacheD) (hPrev : PrevInv cacheE prev) :
    CacheInv cacheE (cacheD.set prev.cache_index prev) := by
  rcases hPrev with hP | ⟨hP1, hP2⟩
  · have hD : cacheD.getD prev.cache_index Pixel.default = prev := by
      rcases hInv prev.cache_index (cache_index_lt prev) with h | ⟨he, _, hi⟩
      · rw [h, hP]
      · have hpd : prev = Pixel.default := by rw [← hP, he]
        rw [hpd] at hi
        exact absurd hi (by decide)
    have hset := set_getD_self cacheD prev.cache_index Pixel.default
      (by rw [hlD]; exact cache_index_lt prev)
    rw [hD] at hset
    rw [hset]
    exact hInv
  · intro i hi
    by_cases hieq : i = prev.cache_index
    · subst hieq
      right
      refine ⟨?_, ?_, ?_⟩
      · rw [hP1]
        exact hP2
      · rw [getD_set_eq cacheD _ _ (by rw [hlD]; exact cache_index_lt prev),
          hP1]
      · rw [hP1]
    · rw [getD_set_ne cacheD _ _ _ hieq]
      exact hInv i hi

theorem cacheInv_set (cacheE cacheD : List Pixel) (p : Pixel)
    (hlE : cacheE.length = 64) (hlD : cacheD.length = 64)
    (hInv : CacheInv cacheE cacheD) :
    CacheInv (cacheE.set p.cache_index p) (cacheD.set p.cache_index p) := by
  intro i hi
  by_cases hieq : i = p.cache_index
  · subst hieq
    left
    rw [getD_set_eq cacheD _ _ (by rw [hlD]; exact cache_index_lt p),
      getD_set_eq cacheE _ _ (by rw [hlE]; exact cache_index_lt p)]
  · rw [getD_set_ne cacheD _ _ _ hieq, getD_set_ne cacheE _ _ _ hieq]
    exact hInv i hi

theorem cacheInv_index_hit (cacheE cacheD : List Pixel) (p : Pixel)
    (hInv : CacheInv cacheE cacheD)
    (hhit : p = cacheE.getD p.cache_index Pixel.default) :
    cacheD.getD p.cache_index Pixel.default = p := by
  rcases hInv p.cache_index (cache_index_lt p) with h | ⟨he, _, hi⟩
  · rw [h, ← hhit]
  · have hpd : p = Pixel.default := by rw [hhit, he]
    rw [hpd] at hi
    exact absurd hi (by decide)

theorem can_diff_8_ranges (dr dg db da : Int)
    (h : can_diff_8 dr dg db da = true) :
    da = 0 ∧ -2 ≤ dr ∧ dr ≤ 1 ∧ -2 ≤ dg ∧ dg ≤ 1 ∧ -2 ≤ db ∧ db ≤ 1 := by
  simp [can_diff_8, is_between, Bool.and_eq_true, decide_eq_true_eq] at h
  tauto

theorem can_diff_16_ranges (dr dg db da : Int)
    (h : can_diff_16 dr dg db da = true) :
    da = 0 ∧ -16 ≤ dr ∧ dr ≤ 15 ∧ -8 ≤ dg ∧ dg ≤ 7 ∧ -8 ≤ db ∧ db ≤ 7 := by
  simp [can_diff_16, is_between, Bool.and_eq_true, decide_eq_true_eq] at h
  tauto

theorem can_diff_24_ranges (dr dg db da : Int)
    (h : can_diff_24 dr dg db da = true) :
    -16 ≤ dr ∧ dr ≤ 15 ∧ -16 ≤ dg ∧ dg ≤ 15 ∧ -16 ≤ db ∧ db ≤ 15
    ∧ -16 ≤ da ∧ da ≤ 15 := by
  simp [can_diff_24, is_between, Bool.and_eq_true, decide_eq_true_eq] at h
  tauto

theorem int_emod_256 (x : Int) : x.emod 256 = x % 256 := rfl

theorem diff8_reconstruct (prev p : Pixel) (a b c : Nat)
    (hwfP : Pixel.wf p)
    (hra : (a : Int) - 2 = (p.r : Int) - (prev.r : Int))
    (hgb : (b : Int) - 2 = (p.g : Int) - (prev.g : Int))
    (hbc : (c : Int) - 2 = (p.b : Int) - (prev.b : Int))
    (haa : p.a = prev.a) :
    ((prev.modify_r ((a : Int) - 2)).modify_g ((b : Int) - 2)).modify_b
      ((c : Int) - 2) = p := by
  obtain ⟨w1, w2, w3, w4⟩ := hwfP
  cases prev
  cases p
  simp only [Pixel.modify_r, Pixel.modify_g, Pixel.modify_b] at *
  simp only [int_emod_256, Pixel.mk.injEq]
  refine ⟨?_, ?_, ?_, ?_⟩ <;> omega

theorem diff16_reconstruct (prev p : Pixel) (v g h : Nat)
    (hwfP : Pixel.wf p)
    (hrv : (v : Int) - 16 = (p.r : Int) - (prev.r : Int))
    (hgg : (g : Int) - 8 = (p.g : Int) - (prev.g : Int))
    (hbh : (h : Int) - 8 = (p.b : Int) - (prev.b : Int))
    (haa : p.a = prev.a) :
    ((prev.modify_r ((v : Int) - 16)).modify_g ((g : Int) - 8)).modify_b
      ((h : Int) - 8) = p := by
  obtain ⟨w1, w2, w3, w4⟩ := hwfP
  cases prev
  cases p
  simp only [Pixel.modify_r, Pixel.modify_g, Pixel.modify_b] at *
  simp only [int_emod_256, Pixel.mk.injEq]
  refine ⟨?_, ?_, ?_, ?_⟩ <;> omega

theorem diff24_reconstruct (prev p : Pixel) (a b c d : Nat)
    (hwfP : Pixel.wf p)
    (hra : (a : Int) - 16 = (p.r : Int) - (prev.r : Int))
    (hgb : (b : Int) - 16 = (p.g : Int) - (prev.g : Int))
    (hbc : (c : Int) - 16 = (p.b : Int) - (prev.b : Int))
    (had : (d : Int) - 16 = (p.a : Int) - (prev.a : Int)) :
    (((prev.modify_r ((a : Int) - 16)).modify_g ((b : Int) - 16)).modify_b
      ((c : Int) - 16)).modify_a ((d : Int) - 16) = p := by
  obtain ⟨w1, w2, w3, w4⟩ := hwfP
  cases prev
  cases p
  simp only [Pixel.modify_r, Pixel.modify_g, Pixel.modify_b,
    Pixel.modify_a] at *
  simp only [int_emod_256, Pixel.mk.injEq]
  refine ⟨?_, ?_, ?_, ?_⟩ <;> omega

theorem ite_or_cond (P : Prop) [Decidable P] (x v : Nat) :
    (if P then x ||| v else x) = x ||| cond (decide P) v 0 := by
  by_cases h : P <;> simp [h]

theorem ite_list_cond (P : Prop) [Decidable P] (v : Nat) :
    (if P then [v] else ([] : List Nat)) = cond (decide P) [v] [] := by
  by_cases h : P <;> simp [h]

theorem cond_list_length (i : Bool) (x : Nat) :
    (cond i [x] ([] : List Nat)).length = cond i 1 0 := by
  cases i <;> rfl

theorem bits_color_mask : ∀ (i j k l : Bool),
    (((((240 ||| cond i 8 0) ||| cond j 4 0) ||| cond k 2 0) ||| cond l 1 0)
        &&& 192 = 192)
    ∧ (((((240 ||| cond i 8 0) ||| cond j 4 0) ||| cond k 2 0) ||| cond l 1 0)
        &&& 224 = 224)
    ∧ (((((240 ||| cond i 8 0) ||| cond j 4 0) ||| cond k 2 0) ||| cond l 1 0)
        &&& 240 = 240) := by
  decide

theorem bits_color_flags : ∀ (i j k l : Bool),
    (((((240 ||| cond i 8 0) ||| cond j 4 0) ||| cond k 2 0) ||| cond l 1 0)
        &&& 8 = cond i 8 0)
    ∧ (((((240 ||| cond i 8 0) ||| cond j 4 0) ||| cond k 2 0) ||| cond l 1 0)
        &&& 4 = cond j 4 0)
    ∧ (((((240 ||| cond i 8 0) ||| cond j 4 0) ||| cond k 2 0) ||| cond l 1 0)
        &&& 2 = cond k 2 0)
    ∧ (((((240 ||| cond i 8 0) ||| cond j 4 0) ||| cond k 2 0) ||| cond l 1 0)
        &&& 1 = cond l 1 0) := by
  decide

/-! The per-changed-pixel opcode round trip. -/

set_option maxHeartbeats 1000000

theorem encOp_decodes (src : List Nat) (pp : Nat)
    (cacheE cacheD1 : List Pixel) (prev p : Pixel) (pre1 rest2 : List Nat)
    (hsrc1 : src = pre1 ++ (encOp cacheE prev p).1 ++ rest2)
    (hlE : cacheE.length = 64) (hlD1 : cacheD1.length = 64)
    (hInv1 : CacheInv cacheE cacheD1)
    (hwfP : Pixel.wf p)
    (hpp : src.length ≤ pp) :
    ∃ cacheD2,
      decodeStep src pp ⟨cacheD1, 0, prev, pre1.length⟩
        = .ok (p, ⟨cacheD2, 0, p,
            pre1.length + (encOp cacheE prev p).1.length⟩)
      ∧ cacheD2.length = 64
      ∧ CacheInv (encOp cacheE prev p).2 cacheD2
      ∧ PrevInv (encOp cacheE prev p).2 p
      ∧ (encOp cacheE prev p).2.length = 64 := by
  by_cases hhit : p = cacheE.getD p.cache_index Pixel.default
  · -- cache hit: 1-byte index opcode
    have he : encOp cacheE prev p = ([0 ||| p.cache_index], cacheE) := by
      rw [encOp, if_pos hhit]
      rfl
    rw [he] at hsrc1 ⊢
    have hq := cacheInv_index_hit cacheE cacheD1 p hInv1 hhit
    have hstep := decodeStep_at_index src pre1 rest2 pp p.cache_index cacheD1
      prev (by simpa using hsrc1) (cache_index_lt p) hpp
    rw [hq] at hstep
    have hset : cacheD1.set p.cache_index p = cacheD1 := by
      have := set_getD_self cacheD1 p.cache_index Pixel.default
        (by rw [hlD1]; exact cache_index_lt p)
      rw [hq] at this
      exact this
    rw [hset] at hstep
    exact ⟨cacheD1, hstep, hlD1, hInv1, Or.inl hhit.symm, hlE⟩
  · -- cache miss: the cache slot is overwritten on both sides
    have he2 : (encOp cacheE prev p).2 = cacheE.set p.cache_index p := by
      rw [encOp, if_neg hhit]
      simp only []
      split_ifs <;> rfl
    have hD2len : (cacheD1.set p.cache_index p).length = 64 := by
      simpa using hlD1
    have hInv2 : CacheInv (encOp cacheE prev p).2 (cacheD1.set p.cache_index p) := by
      rw [he2]
      exact cacheInv_set _ _ _ hlE hlD1 hInv1
    have hPrev2 : PrevInv (encOp cacheE prev p).2 p := by
      rw [he2]
      exact Or.inl (getD_set_eq cacheE _ _ (by rw [hlE]; exact cache_index_lt p))
    have hE2len : (encOp cacheE prev p).2.length = 64 := by
      rw [he2]
      simpa using hlE
    by_cases h24 : can_diff_24 ((p.r : Int) - prev.r) ((p.g : Int) - prev.g)
        ((p.b : Int) - prev.b) ((p.a : Int) - prev.a) = true
    · by_cases h8 : can_diff_8 ((p.r : Int) - prev.r) ((p.g : Int) - prev.g)
          ((p.b : Int) - prev.b) ((p.a : Int) - prev.a) = true
      · -- 1-byte small delta
        obtain ⟨hda, hr1, hr2, hg1, hg2, hb1, hb2⟩ :=
          can_diff_8_ranges _ _ _ _ h8
        have he1 : (encOp cacheE prev p).1
            = [diff_8 ((p.r : Int) - prev.r) ((p.g : Int) - prev.g)
                ((p.b : Int) - prev.b)] := by
          rw [encOp, if_neg hhit]
          simp only [h24, h8, if_true]
        set a := ((p.r : Int) - prev.r + 2).toNat with hadef
        set b := ((p.g : Int) - prev.g + 2).toNat with hbdef
        set c := ((p.b : Int) - prev.b + 2).toNat with hcdef
        have hbyte : diff_8 ((p.r : Int) - prev.r) ((p.g : Int) - prev.g)
            ((p.b : Int) - prev.b)
            = 128 ||| (a * 16 % 256) ||| (b * 4 % 256) ||| (c % 256) := by
          rw [diff_8, DIFF_8,
            show (p.r : Int) - prev.r + 2 = (a : Int) from by omega,
            show (p.g : Int) - prev.g + 2 = (b : Int) from by omega,
            show (p.b : Int) - prev.b + 2 = (c : Int) from by omega,
            show ((a : Int)) * 16 = ((a * 16 : Nat) : Int) from by
              push_cast; ring,
            show ((b : Int)) * 4 = ((b * 4 : Nat) : Int) from by
              push_cast; ring,
            u8cast_natCast, u8cast_natCast, u8cast_natCast]
        rw [he1, hbyte] at hsrc1
        have hstep := decodeStep_at_diff8 src pre1 rest2 pp a b c cacheD1 prev
          (by simpa using hsrc1) (by omega) (by omega) (by omega) hpp
        have hpx := diff8_reconstruct prev p a b c hwfP (by omega) (by omega)
          (by omega) (by omega)
        rw [hpx] at hstep
        refine ⟨cacheD1.set p.cache_index p, ?_, hD2len, hInv2, hPrev2, hE2len⟩
        rw [he1, hbyte]
        simpa using hstep
      · by_cases h16 : can_diff_16 ((p.r : Int) - prev.r) ((p.g : Int) - prev.g)
            ((p.b : Int) - prev.b) ((p.a : Int) - prev.a) = true
        · -- 2-byte medium delta
          obtain ⟨hda, hr1, hr2, hg1, hg2, hb1, hb2⟩ :=
            can_diff_16_ranges _ _ _ _ h16
          have he1 : (encOp cacheE prev p).1
              = diff_16 ((p.r : Int) - prev.r) ((p.g : Int) - prev.g)
                  ((p.b : Int) - prev.b) := by
            rw [encOp, if_neg hhit]
            simp only [h24, h8, h16, if_true, if_false, Bool.false_eq_true]
          set v := ((p.r : Int) - prev.r + 16).toNat with hvdef
          set g := ((p.g : Int) - prev.g + 8).toNat with hgdef
          set h := ((p.b : Int) - prev.b + 8).toNat with hhdef
          have hbyte : diff_16 ((p.r : Int) - prev.r) ((p.g : Int) - prev.g)
              ((p.b : Int) - prev.b)
              = [192 ||| (v % 256), (g * 16 % 256) ||| (h % 256)] := by
            rw [diff_16, DIFF_16,
              show (p.r : Int) - prev.r + 16 = (v : Int) from by omega,
              show (p.g : Int) - prev.g + 8 = (g : Int) from by omega,
              show (p.b : Int) - prev.b + 8 = (h : Int) from by omega,
              show ((g : Int)) * 16 = ((g * 16 : Nat) : Int) from by
                push_cast; ring,
              u8cast_natCast, u8cast_natCast, u8cast_natCast]
          rw [he1, hbyte] at hsrc1
          have hstep := decodeStep_at_diff16 src pre1 rest2 pp v g h cacheD1
            prev (by simpa using hsrc1) (by omega) (by omega) (by omega) hpp
          have hpx := diff16_reconstruct prev p v g h hwfP (by omega) (by omega)
            (by omega) (by omega)
          rw [hpx] at hstep
          refine ⟨cacheD1.set p.cache_index p, ?_, hD2len, hInv2, hPrev2,
            hE2len⟩
          rw [he1, hbyte]
          simpa using hstep
        · -- 3-byte large delta
          obtain ⟨hr1, hr2, hg1, hg2, hb1, hb2, ha1, ha2⟩ :=
            can_diff_24_ranges _ _ _ _ h24
          have he1 : (encOp cacheE prev p).1
              = diff_24 ((p.r : Int) - prev.r) ((p.g : Int) - prev.g)
                  ((p.b : Int) - prev.b) ((p.a : Int) - prev.a) := by
            rw [encOp, if_neg hhit]
            simp only [h24, h8, h16, if_true, if_false, Bool.false_eq_true]
          set a := ((p.r : Int) - prev.r + 16).toNat with hadef
          set b := ((p.g : Int) - prev.g + 16).toNat with hbdef
          set c := ((p.b : Int) - prev.b + 16).toNat with hcdef
          set d := ((p.a : Int) - prev.a + 16).toNat with hddef
          have hbyte : diff_24 ((p.r : Int) - prev.r) ((p.g : Int) - prev.g)
              ((p.b : Int) - prev.b) ((p.a : Int) - prev.a)
              = [224 ||| (a / 2 % 256),
                 (a * 128 % 256) ||| (b * 4 % 256) ||| (c / 8 % 256),
                 (c * 32 % 256) ||| (d % 256)] := by
            rw [diff_24, DIFF_24,
              show (p.r : Int) - prev.r + 16 = (a : Int) from by omega,
              show (p.g : Int) - prev.g + 16 = (b : Int) from by omega,
              show (p.b : Int) - prev.b + 16 = (c : Int) from by omega,
              show (p.a : Int) - prev.a + 16 = (d : Int) from by omega,
              show ((a : Int)) / 2 = ((a / 2 : Nat) : Int) from by omega,
              show ((c : Int)) / 8 = ((c / 8 : Nat) : Int) from by omega,
              show ((a : Int)) * 128 = ((a * 128 : Nat) : Int) from by
                push_cast; ring,
              show ((b : Int)) * 4 = ((b * 4 : Nat) : Int) from by
                push_cast; ring,
              show ((c : Int)) * 32 = ((c * 32 : Nat) : Int) from by
                push_cast; ring,
              u8cast_natCast, u8cast_natCast, u8cast_natCast, u8cast_natCast,
              u8cast_natCast, u8cast_natCast]
          rw [he1, hbyte] at hsrc1
          have hstep := decodeStep_at_diff24 src pre1 rest2 pp a b c d cacheD1
            prev (by simpa using hsrc1) (by omega) (by omega) (by omega)
            (by omega) hpp
          have hpx := diff24_reconstruct prev p a b c d hwfP (by omega)
            (by omega) (by omega) (by omega)
          rw [hpx] at hstep
          refine ⟨cacheD1.set p.cache_index p, ?_, hD2len, hInv2, hPrev2,
            hE2len⟩
          rw [he1, hbyte]
          have hlen3 : ([224 ||| (a / 2 % 256),
              (a * 128 % 256) ||| (b * 4 % 256) ||| (c / 8 % 256),
              (c * 32 % 256) ||| (d % 256)] : List Nat).length = 3 := rfl
          rw [hlen3]
          rw [show pre1.length + 3 = pre1.length + 1 + 2 from by omega]
          exact hstep
    · -- literal color opcode
      have he1 : (encOp cacheE prev p).1
          = encColor p ((p.r : Int) - prev.r) ((p.g : Int) - prev.g)
              ((p.b : Int) - prev.b) ((p.a : Int) - prev.a) := by
        rw [encOp, if_neg hhit]
        simp only [h24, if_false, Bool.false_eq_true]
      have hcolor : encColor p ((p.r : Int) - prev.r) ((p.g : Int) - prev.g)
          ((p.b : Int) - prev.b) ((p.a : Int) - prev.a)
          = ((((240 ||| cond (decide ((p.r : Int) - prev.r ≠ 0)) 8 0)
              ||| cond (decide ((p.g : Int) - prev.g ≠ 0)) 4 0)
              ||| cond (decide ((p.b : Int) - prev.b ≠ 0)) 2 0)
              ||| cond (decide ((p.a : Int) - prev.a ≠ 0)) 1 0)
            :: (cond (decide ((p.r : Int) - prev.r ≠ 0)) [p.r] []
              ++ cond (decide ((p.g : Int) - prev.g ≠ 0)) [p.g] []
              ++ cond (decide ((p.b : Int) - prev.b ≠ 0)) [p.b] []
              ++ cond (decide ((p.a : Int) - prev.a ≠ 0)) [p.a] []) := by
        rw [encColor, COLOR]
        simp only [ite_or_cond, ite_list_cond]
      rw [he1, hcolor] at hsrc1
      have hmask := bits_color_mask (decide ((p.r : Int) - prev.r ≠ 0))
        (decide ((p.g : Int) - prev.g ≠ 0)) (decide ((p.b : Int) - prev.b ≠ 0))
        (decide ((p.a : Int) - prev.a ≠ 0))
      have hflags := bits_color_flags (decide ((p.r : Int) - prev.r ≠ 0))
        (decide ((p.g : Int) - prev.g ≠ 0)) (decide ((p.b : Int) - prev.b ≠ 0))
        (decide ((p.a : Int) - prev.a ≠ 0))
      have hread0 := colorRead_eval (pre1
          ++ [(((240 ||| cond (decide ((p.r : Int) - prev.r ≠ 0)) 8 0)
              ||| cond (decide ((p.g : Int) - prev.g ≠ 0)) 4 0)
              ||| cond (decide ((p.b : Int) - prev.b ≠ 0)) 2 0)
              ||| cond (decide ((p.a : Int) - prev.a ≠ 0)) 1 0]) rest2
        (decide ((p.r : Int) - prev.r ≠ 0)) (decide ((p.g : Int) - prev.g ≠ 0))
        (decide ((p.b : Int) - prev.b ≠ 0)) (decide ((p.a : Int) - prev.a ≠ 0))
        ((((240 ||| cond (decide ((p.r : Int) - prev.r ≠ 0)) 8 0)
            ||| cond (decide ((p.g : Int) - prev.g ≠ 0)) 4 0)
            ||| cond (decide ((p.b : Int) - prev.b ≠ 0)) 2 0)
            ||| cond (decide ((p.a : Int) - prev.a ≠ 0)) 1 0)
        prev p.r p.g p.b p.a hflags.1 hflags.2.1 hflags.2.2.1 hflags.2.2.2
      have hcr : cond (decide ((p.r : Int) - prev.r ≠ 0)) p.r prev.r = p.r := by
        rcases hdec : decide ((p.r : Int) - prev.r ≠ 0) with _ | _
        · rw [decide_eq_false_iff_not] at hdec
          push_neg at hdec
          simp only [cond_false]
          omega
        · rfl
      have hcg : cond (decide ((p.g : Int) - prev.g ≠ 0)) p.g prev.g = p.g := by
        rcases hdec : decide ((p.g : Int) - prev.g ≠ 0) with _ | _
        · rw [decide_eq_false_iff_not] at hdec
          push_neg at hdec
          simp only [cond_false]
          omega
        · rfl
      have hcb : cond (decide ((p.b : Int) - prev.b ≠ 0)) p.b prev.b = p.b := by
        rcases hdec : decide ((p.b : Int) - prev.b ≠ 0) with _ | _
        · rw [decide_eq_false_iff_not] at hdec
          push_neg at hdec
          simp only [cond_false]
          omega
        · rfl
      have hca : cond (decide ((p.a : Int) - prev.a ≠ 0)) p.a prev.a = p.a := by
        rcases hdec : decide ((p.a : Int) - prev.a ≠ 0) with _ | _
        · rw [decide_eq_false_iff_not] at hdec
          push_neg at hdec
          simp only [cond_false]
          omega
        · rfl
      have hpx : (⟨cond (decide ((p.r : Int) - prev.r ≠ 0)) p.r prev.r,
          cond (decide ((p.g : Int) - prev.g ≠ 0)) p.g prev.g,
          cond (decide ((p.b : Int) - prev.b ≠ 0)) p.b prev.b,
          cond (decide ((p.a : Int) - prev.a ≠ 0)) p.a prev.a⟩ : Pixel)
          = p := pixel_ext _ _ hcr hcg hcb hca
      set i1 := decide ((p.r : Int) - prev.r ≠ 0) with hi1
      set i2 := decide ((p.g : Int) - prev.g ≠ 0) with hi2
      set i3 := decide ((p.b : Int) - prev.b ≠ 0) with hi3
      set i4 := decide ((p.a : Int) - prev.a ≠ 0) with hi4
      set C := (((240 ||| cond i1 8 0) ||| cond i2 4 0) ||| cond i3 2 0)
        ||| cond i4 1 0 with hC
      set comps := cond i1 [p.r] [] ++ cond i2 [p.g] [] ++ cond i3 [p.b] []
        ++ cond i4 [p.a] [] with hcomps
      have hsrc2 : src = pre1 ++ [C] ++ (comps ++ rest2) := by
        rw [hsrc1]
        simp
      rw [← hsrc2] at hread0
      rw [hpx] at hread0
      rw [show (pre1 ++ [C]).length = pre1.length + 1 from by simp] at hread0
      have hclen : comps.length
          = cond i1 1 0 + cond i2 1 0 + cond i3 1 0 + cond i4 1 0 := by
        rw [hcomps]
        simp only [List.length_append, cond_list_length]
      have hread : colorRead src C prev (pre1.length + 1)
          = .ok (p, pre1.length + 1 + comps.length) := by
        rw [hread0, ← hclen]
      have hsrc3 : src = pre1 ++ C :: (comps ++ rest2) := by
        rw [hsrc1]
        simp
      have hstepC := decodeStep_at_color src pre1 rest2 pp cacheD1 prev p C
        comps hmask.1 hmask.2.1 hmask.2.2 hsrc3 hread hpp
      refine ⟨cacheD1.set p.cache_index p, ?_, hD2len, hInv2, hPrev2, hE2len⟩
      rw [he1, hcolor]
      rw [show (C :: comps).length = comps.length + 1 from by simp]
      rw [show pre1.length + (comps.length + 1)
        = pre1.length + 1 + comps.length from by omega]
      exact hstepC

/-! The encoder loop against the decoder loop. -/

theorem encLoop_run_noflush (p : Pixel) (rest : List Pixel)
    (cacheE : List Pixel) (prev : Pixel) (run : Nat)
    (hpe : p = prev) (h1 : run + 1 ≠ 8224) (h2 : rest ≠ []) :
    encLoop (p :: rest) cacheE prev run = encLoop rest cacheE prev (run + 1) := by
  subst hpe
  rw [encLoop]
  simp [h1, h2]

theorem encLoop_run_flush (p : Pixel) (rest : List Pixel)
    (cacheE : List Pixel) (prev : Pixel) (run : Nat)
    (hpe : p = prev) (hfl : run + 1 = 8224 ∨ rest = []) :
    encLoop (p :: rest) cacheE prev run
      = runFlushBytes (run + 1) ++ encLoop rest cacheE prev 0 := by
  subst hpe
  rw [encLoop]
  rcases hfl with h | h
  · simp [h]
  · simp [h]

theorem encLoop_change (p : Pixel) (rest : List Pixel)
    (cacheE : List Pixel) (prev : Pixel) (run : Nat) (hne : p ≠ prev) :
    encLoop (p :: rest) cacheE prev run
      = (if 0 < run then runFlushBytes run else [])
        ++ ((encOp cacheE prev p).1
          ++ encLoop rest (encOp cacheE prev p).2 p 0) := by
  rw [encLoop]
  simp [hne]

theorem encLoop_decodes (src : List Nat) (pp : Nat) (tail : List Nat)
    (htail : 4 ≤ tail.length) (hpp : src.length ≤ pp) :
    ∀ (ps : List Pixel) (cacheE cacheD : List Pixel) (prev : Pixel)
      (run : Nat) (pre : List Nat),
      src = pre ++ encLoop ps cacheE prev run ++ tail →
      cacheE.length = 64 → cacheD.length = 64 →
      CacheInv cacheE cacheD → PrevInv cacheE prev →
      (∀ p ∈ ps, Pixel.wf p) →
      run < 8224 → (ps = [] → run = 0) →
      ∃ st2, decodeLoop src pp (run + ps.length) ⟨cacheD, 0, prev, pre.length⟩
        = .ok (List.replicate run prev ++ ps, st2) := by
  intro ps
  induction ps with
  | nil =>
      intro cacheE cacheD prev run pre hsrc hlE hlD hInv hPrev hwfps hrun hrun0
      rw [hrun0 rfl]
      exact ⟨⟨cacheD, 0, prev, pre.length⟩, rfl⟩
  | cons p rest ih =>
      intro cacheE cacheD prev run pre hsrc hlE hlD hInv hPrev hwfps hrun hrun0
      have hwfP : Pixel.wf p := hwfps p (by simp)
      have hwfrest : ∀ q ∈ rest, Pixel.wf q := fun q hq => hwfps q (by simp [hq])
      by_cases hpe : p = prev
      · by_cases hfl : run + 1 = 8224 ∨ rest = []
        · -- the run is flushed at this pixel
          rw [encLoop_run_flush p rest cacheE prev run hpe hfl] at hsrc
          have hInv1 := cacheInv_refresh cacheE cacheD prev hlD hInv hPrev
          have hsrc2 : src = (pre ++ runFlushBytes (run + 1))
              ++ encLoop rest cacheE prev 0 ++ tail := by
            rw [hsrc]
            simp
          have hih := ih cacheE (cacheD.set prev.cache_index prev) prev 0
            (pre ++ runFlushBytes (run + 1)) hsrc2 hlE (by simpa using hlD)
            hInv1 hPrev hwfrest (by omega) (fun _ => rfl)
          obtain ⟨st2, hdl⟩ := hih
          rw [Nat.zero_add, List.length_append] at hdl
          have hdl2 : decodeLoop src pp rest.length
              ⟨cacheD.set prev.cache_index prev, 0, prev,
                pre.length + (runFlushBytes (run + 1)).length⟩
              = .ok (rest, st2) := by
            simpa using hdl
          have hfl2 := decodeLoop_flush src pre
            (encLoop rest cacheE prev 0 ++ tail) pp (run + 1) rest.length
            cacheD prev rest st2 (by rw [hsrc]; simp) (by omega) (by omega)
            (by simp; omega) hpp hdl2
          refine ⟨st2, ?_⟩
          rw [show run + (p :: rest).length = (run + 1) + rest.length from by
            simp only [List.length_cons]
            omega]
          rw [show List.replicate run prev ++ p :: rest
              = List.replicate (run + 1) prev ++ rest from by
            subst hpe
            rw [List.replicate_succ']
            simp]
          exact hfl2
        · -- the run keeps accumulating
          push_neg at hfl
          rw [encLoop_run_noflush p rest cacheE prev run hpe hfl.1 hfl.2]
            at hsrc
          have hih := ih cacheE cacheD prev (run + 1) pre hsrc hlE hlD hInv
            hPrev hwfrest (by omega) (fun h => absurd h hfl.2)
          obtain ⟨st2, hdl⟩ := hih
          refine ⟨st2, ?_⟩
          rw [show run + (p :: rest).length = (run + 1) + rest.length from by
            simp only [List.length_cons]
            omega]
          rw [show List.replicate run prev ++ p :: rest
              = List.replicate (run + 1) prev ++ rest from by
            subst hpe
            rw [List.replicate_succ']
            simp]
          exact hdl
      · -- a changed pixel: optional flush, then one opcode
        rw [encLoop_change p rest cacheE prev run hpe] at hsrc
        by_cases hr0 : 0 < run
        · rw [if_pos hr0] at hsrc
          have hInv1 := cacheInv_refresh cacheE cacheD prev hlD hInv hPrev
          have hsrcop : src = (pre ++ runFlushBytes run)
              ++ (encOp cacheE prev p).1
              ++ (encLoop rest (encOp cacheE prev p).2 p 0 ++ tail) := by
            rw [hsrc]
            simp
          have hop := encOp_decodes src pp cacheE
            (cacheD.set prev.cache_index prev) prev p
            (pre ++ runFlushBytes run)
            (encLoop rest (encOp cacheE prev p).2 p 0 ++ tail) hsrcop hlE
            (by simpa using hlD) hInv1 hwfP hpp
          obtain ⟨cacheD2, hstep, hlD2, hInv2, hPrev2, hlE2⟩ := hop
          have hsrc3 : src = ((pre ++ runFlushBytes run)
              ++ (encOp cacheE prev p).1)
              ++ encLoop rest (encOp cacheE prev p).2 p 0 ++ tail := by
            rw [hsrc]
            simp
          have hih := ih (encOp cacheE prev p).2 cacheD2 p 0
            ((pre ++ runFlushBytes run) ++ (encOp cacheE prev p).1) hsrc3
            hlE2 hlD2 hInv2 hPrev2 hwfrest (by omega) (fun _ => rfl)
          obtain ⟨st2, hdl⟩ := hih
          rw [Nat.zero_add, List.length_append] at hdl
          have hdl2 : decodeLoop src pp rest.length
              ⟨cacheD2, 0, p, (pre ++ runFlushBytes run).length
                + (encOp cacheE prev p).1.length⟩ = .ok (rest, st2) := by
            simpa using hdl
          have hso := decodeLoop_succ_ok hstep hdl2
          rw [List.length_append] at hso
          have hfl2 := decodeLoop_flush src pre
            ((encOp cacheE prev p).1
              ++ (encLoop rest (encOp cacheE prev p).2 p 0 ++ tail)) pp run
            (rest.length + 1) cacheD prev (p :: rest) st2
            (by rw [hsrc]; simp) (by omega) (by omega) (by simp; omega) hpp
            hso
          refine ⟨st2, ?_⟩
          rw [show run + (p :: rest).length = run + (rest.length + 1) from by
            simp only [List.length_cons]]
          exact hfl2
        · rw [if_neg hr0] at hsrc
          have hr00 : run = 0 := by omega
          subst hr00
          rw [List.nil_append] at hsrc
          have hsrcop : src = pre ++ (encOp cacheE prev p).1
              ++ (encLoop rest (encOp cacheE prev p).2 p 0 ++ tail) := by
            rw [hsrc]
            simp
          have hop := encOp_decodes src pp cacheE cacheD prev p pre
            (encLoop rest (encOp cacheE prev p).2 p 0 ++ tail) hsrcop hlE hlD
            hInv hwfP hpp
          obtain ⟨cacheD2, hstep, hlD2, hInv2, hPrev2, hlE2⟩ := hop
          have hsrc3 : src = (pre ++ (encOp cacheE prev p).1)
              ++ encLoop rest (encOp cacheE prev p).2 p 0 ++ tail := by
            rw [hsrc]
            simp
          have hih := ih (encOp cacheE prev p).2 cacheD2 p 0
            (pre ++ (encOp cacheE prev p).1) hsrc3 hlE2 hlD2 hInv2 hPrev2
            hwfrest (by omega) (fun _ => rfl)
          obtain ⟨st2, hdl⟩ := hih
          rw [Nat.zero_add, List.length_append] at hdl
          have hdl2 : decodeLoop src pp rest.length
              ⟨cacheD2, 0, p, pre.length + (encOp cacheE prev p).1.length⟩
              = .ok (rest, st2) := by
            simpa using hdl
          have hso := decodeLoop_succ_ok hstep hdl2
          refine ⟨st2, ?_⟩
          rw [show 0 + (p :: rest).length = rest.length + 1 from by
            simp only [List.length_cons]
            omega]
          rw [show List.replicate 0 prev ++ p :: rest = p :: rest from by simp]
          exact hso

theorem toPixels3_length : ∀ R : List Nat, (toPixels3 R).length = R.length / 3
  | [] => by simp [toPixels3]
  | [r] => by simp [toPixels3]
  | [r, g] => by simp [toPixels3]
  | r :: g :: b :: rest => by
      rw [toPixels3]
      simp only [List.length_cons]
      rw [toPixels3_length rest]
      omega

theorem toPixels4_length : ∀ R : List Nat, (toPixels4 R).length = R.length / 4
  | [] => by simp [toPixels4]
  | [r] => by simp [toPixels4]
  | [r, g] => by simp [toPixels4]
  | [r, g, b] => by simp [toPixels4]
  | r :: g :: b :: a :: rest => by
      rw [toPixels4]
      simp only [List.length_cons]
      rw [toPixels4_length rest]
      omega

theorem toPixels_length (c : Channels) (R : List Nat) :
    (toPixels c R).length = R.length / c.len := by
  cases c
  · exact toPixels3_length R
  · exact toPixels4_length R

theorem toPixels3_wf : ∀ R : List Nat, (∀ x ∈ R, x < 256) →
    ∀ p ∈ toPixels3 R, Pixel.wf p
  | [], _ => by simp [toPixels3]
  | [r], _ => by simp [toPixels3]
  | [r, g], _ => by simp [toPixels3]
  | r :: g :: b :: rest, hb => by
      intro p hp
      rw [toPixels3] at hp
      rcases List.mem_cons.mp hp with h | h
      · subst h
        refine ⟨hb r (by simp), hb g (by simp), hb b (by simp), ?_⟩
        simp
      · exact toPixels3_wf rest (fun x hx => hb x (by simp [hx])) p h

theorem toPixels4_wf : ∀ R : List Nat, (∀ x ∈ R, x < 256) →
    ∀ p ∈ toPixels4 R, Pixel.wf p
  | [], _ => by simp [toPixels4]
  | [r], _ => by simp [toPixels4]
  | [r, g], _ => by simp [toPixels4]
  | [r, g, b], _ => by simp [toPixels4]
  | r :: g :: b :: a :: rest, hb => by
      intro p hp
      rw [toPixels4] at hp
      rcases List.mem_cons.mp hp with h | h
      · subst h
        exact ⟨hb r (by simp), hb g (by simp), hb b (by simp),
          hb a (by simp)⟩
      · exact toPixels4_wf rest (fun x hx => hb x (by simp [hx])) p h

theorem toPixels_wf (c : Channels) (R : List Nat) (hb : ∀ x ∈ R, x < 256) :
    ∀ p ∈ toPixels c R, Pixel.wf p := by
  cases c
  · exact toPixels3_wf R hb
  · exact toPixels4_wf R hb

theorem toPixels3_flat : ∀ R : List Nat, 3 ∣ R.length →
    ((toPixels3 R).map (pixelBytes Channels.Three)).flatten = R
  | [], _ => by simp [toPixels3]
  | [r], hd => by simp at hd
  | [r, g], hd => by simp at hd; omega
  | r :: g :: b :: rest, hd => by
      rw [toPixels3]
      simp only [List.map_cons, List.flatten_cons]
      rw [toPixels3_flat rest (by simp at hd; omega)]
      rfl

theorem toPixels4_flat : ∀ R : List Nat, 4 ∣ R.length →
    ((toPixels4 R).map (pixelBytes Channels.Four)).flatten = R
  | [], _ => by simp [toPixels4]
  | [r], hd => by simp at hd
  | [r, g], hd => by simp at hd; omega
  | [r, g, b], hd => by simp at hd; omega
  | r :: g :: b :: a :: rest, hd => by
      rw [toPixels4]
      simp only [List.map_cons, List.flatten_cons]
      rw [toPixels4_flat rest (by simp at hd; omega)]
      rfl

theorem toPixels_flat (c : Channels) (R : List Nat) (hd : c.len ∣ R.length) :
    ((toPixels c R).map (pixelBytes c)).flatten = R := by
  cases c
  · exact toPixels3_flat R hd
  · exact toPixels4_flat R hd

theorem to_array_length (hd : QoiHeader) : hd.to_array.length = 14 := by
  rw [QoiHeader.to_array]
  simp [u32_to_be_bytes]

theorem to_array_parse (w h : Nat) (c : Channels) (cs : Nat) (X : List Nat)
    (hw : w < 2 ^ 32) (hh : h < 2 ^ 32) :
    QoiHeader.new_from_slice ((QoiHeader.new w h c cs).to_array ++ X)
      = .ok (QoiHeader.new w h c cs) := by
  rw [QoiHeader.new_from_slice, QoiHeader.new, QoiHeader.to_array]
  simp only [u32_to_be_bytes, List.cons_append, List.nil_append]
  rw [if_neg (by simp [HEADER_SIZE]), if_neg (by simp)]
  have h12 : ((113 : Nat) :: 111 :: 105 :: 102 :: (w / 2 ^ 24 % 256)
      :: (w / 2 ^ 16 % 256) :: (w / 2 ^ 8 % 256) :: (w % 256)
      :: (h / 2 ^ 24 % 256) :: (h / 2 ^ 16 % 256) :: (h / 2 ^ 8 % 256)
      :: (h % 256) :: c.len :: cs :: X).getD 12 0 = c.len := by
    simp [List.getD]
  rw [h12]
  cases c <;>
    · simp only [Channels.len, Channels.try_from]
      refine congrArg Except.ok ?_
      simp only [QoiHeader.mk.injEq]
      refine ⟨?_, ?_, trivial, ?_⟩
      · rw [u32_from_be_bytes]
        simp [List.getD]
        omega
      · rw [u32_from_be_bytes]
        simp [List.getD]
        omega
      · simp [List.getD]

theorem sat_mul_u32 (w h : Nat) (hw : w < 2 ^ 32) (hh : h < 2 ^ 32) :
    saturating_mul w h = w * h := by
  have hwh : w * h < 2 ^ 64 :=
    lt_of_lt_of_le (Nat.mul_lt_mul'' hw hh) (by norm_num)
  rw [saturating_mul, USIZE_MOD]
  omega

theorem roundtrip_arith (w h : Nat) (c : Channels) (hw : w < 2 ^ 32)
    (hh : h < 2 ^ 32)
    (hle : ¬ saturating_add (saturating_add
        (saturating_mul (saturating_mul w h) c.len) HEADER_SIZE) PADDING
      > MAX_SIZE) :
    w * h * c.len + 18 ≤ 2 ^ 30 := by
  rw [sat_mul_u32 w h hw hh] at hle
  simp only [saturating_mul, saturating_add, MAX_SIZE, USIZE_MOD,
    HEADER_SIZE, PADDING] at hle
  omega

/-- C1 amended: whenever qoi_encode_to_vec succeeds, decoding its output with
qoi_decode_to_vec and the same channel count returns the source exactly. -/
theorem C1_roundtrip (R : List Nat) (w h : Nat) (c : Channels) (cs : Nat)
    (bytes : List Nat) (hw : w < 2 ^ 32) (hh : h < 2 ^ 32)
    (hR : R.length = w * h * c.len) (hb : ∀ x ∈ R, x < 256)
    (henc : qoi_encode_to_vec R w h c cs = some (Except.ok bytes)) :
    qoi_decode_to_vec bytes (some c) = .ok R := by
  rw [qoi_encode_to_vec] at henc
  split at henc
  · simp at henc
  rename_i hle
  split at henc
  · simp at henc
  · simp at henc
  rename_i B heq
  simp only [Option.some.injEq, Except.ok.injEq] at henc
  subst henc
  rw [qoi_encode] at heq
  simp only at heq
  split at heq
  · simp at heq
  rename_i hguard
  split at heq
  · simp at heq
  rename_i hfit
  simp only [Option.some.injEq, Except.ok.injEq] at heq
  subst heq
  -- arithmetic consequences of the TooBig check
  have hbound := roundtrip_arith w h c hw hh hle
  have hwh : w * h < 2 ^ 64 :=
    lt_of_lt_of_le (Nat.mul_lt_mul'' hw hh) (by norm_num)
  have hmul : w * h * c.len < 2 ^ 64 := by omega
  have hris : QoiHeader.raw_image_size (QoiHeader.new w h c cs) c
      = w * h * c.len := by
    rw [QoiHeader.raw_image_size]
    show w * h % USIZE_MOD * c.len % USIZE_MOD = w * h * c.len
    rw [USIZE_MOD, Nat.mod_eq_of_lt hwh, Nat.mod_eq_of_lt hmul]
  have htake : R.take (w * h * c.len) = R := by
    rw [← hR]
    exact List.take_length R
  rw [hris, htake]
  have hclen : 0 < c.len := by cases c <;> decide
  have hn : w * h * c.len / c.len = w * h := Nat.mul_div_cancel _ hclen
  have hnotbig : ¬ w * h * c.len > MAX_SIZE := by
    simp only [MAX_SIZE]
    omega
  -- decode side
  rw [qoi_decode_to_vec, List.append_assoc,
    to_array_parse w h c cs _ hw hh]
  simp only [Option.getD_some, hris]
  rw [if_neg hnotbig]
  rw [qoi_decode, to_array_parse w h c cs _ hw hh]
  simp only [Option.getD_some, hris, List.length_replicate]
  rw [if_neg (lt_irrefl _)]
  have hlen : ((QoiHeader.new w h c cs).to_array
      ++ (encLoop (toPixels c R) initCache (Pixel.new 0 0 0 255) 0
          ++ List.replicate PADDING 0)).length
      = 18 + (encLoop (toPixels c R) initCache (Pixel.new 0 0 0 255) 0).length
      := by
    simp only [List.length_append, List.length_replicate, to_array_length,
      PADDING]
    omega
  rw [hlen, if_neg (by simp only [HEADER_SIZE, PADDING]; omega)]
  have hdrop : ∀ X : List Nat,
      ((QoiHeader.new w h c cs).to_array ++ X).drop HEADER_SIZE = X := by
    intro X
    have h14 : HEADER_SIZE = ((QoiHeader.new w h c cs).to_array).length := by
      rw [to_array_length, HEADER_SIZE]
    rw [h14, List.drop_left]
  rw [hdrop, hn]
  have hpp2 : 18 + (encLoop (toPixels c R) initCache
        (Pixel.new 0 0 0 255) 0).length - PADDING
      = 14 + (encLoop (toPixels c R) initCache
        (Pixel.new 0 0 0 255) 0).length := by
    simp only [PADDING]
    omega
  rw [hpp2]
  -- the round-trip induction
  obtain ⟨st2, hdl⟩ := encLoop_decodes
    (encLoop (toPixels c R) initCache (Pixel.new 0 0 0 255) 0
      ++ List.replicate PADDING 0)
    (14 + (encLoop (toPixels c R) initCache (Pixel.new 0 0 0 255) 0).length)
    (List.replicate PADDING 0)
    (by simp [PADDING])
    (by simp only [List.length_append, List.length_replicate, PADDING]; omega)
    (toPixels c R) initCache initCache (Pixel.new 0 0 0 255) 0 []
    rfl
    (by simp [initCache])
    (by simp [initCache])
    (fun i _ => Or.inl rfl)
    (Or.inr ⟨rfl, by decide⟩)
    (toPixels_wf c R hb)
    (by omega)
    (fun _ => rfl)
  have hlenps : (toPixels c R).length = w * h := by
    rw [toPixels_length, hR, hn]
  rw [hlenps] at hdl
  simp only [Nat.zero_add, List.replicate_zero, List.nil_append,
    List.length_nil] at hdl
  rw [hdl]
  simp only []
  have hdvd : c.len ∣ R.length := ⟨w * h, by rw [hR]; ring⟩
  rw [toPixels_flat c R hdvd]
  have hdropnil : (List.replicate (w * h * c.len) (0 : Nat)).drop
      (w * h * c.len) = [] := by
    simp
  rw [hdropnil, List.append_nil]

/-- C1 counterexample: the claim says encoding succeeds for every raw buffer
of exactly w*h*c bytes, for every w,h >= 0 including the 0x0 image, but the
encoder rejects the empty 0x0 buffer with InputSize, because its
raw_image_size 0 is smaller than the channel count
(src/src/encode.rs lines 42-46). -/
theorem C1_empty_counterexample :
    qoi_encode_to_vec [] 0 0 Channels.Three 0
      = some (.error .InputSize) := by
  decide

/-- C1 amended witness: the 1x1 three-channel buffer [1,0,0] encodes
successfully (one DIFF_8 opcode) and decodes back to itself. -/
theorem C1_roundtrip_witness :
    qoi_encode_to_vec [1, 0, 0] 1 1 Channels.Three 0
      = some (Except.ok [113, 111, 105, 102, 0, 0, 0, 1, 0, 0, 0, 1, 3, 0,
          186, 0, 0, 0, 0])
    ∧ qoi_decode_to_vec
        [113, 111, 105, 102, 0, 0, 0, 1, 0, 0, 0, 1, 3, 0, 186, 0, 0, 0, 0]
        (some Channels.Three) = .ok [1, 0, 0] := by
  refine ⟨by decide, ?_⟩
  exact C1_roundtrip [1, 0, 0] 1 1 Channels.Three 0 _ (by decide) (by decide)
    (by decide) (by decide) (by decide)

/-- C8: opcode selection order for a changed pixel (src/src/encode.rs lines
77-188).  The cache-index opcode is checked first and always preferred;
otherwise the tiers are tried in order: small delta (da = 0 and dr, dg, db in
[-2, 1]) gives diff_8, else medium delta (da = 0, dr in [-16, 15], dg, db in
[-8, 7]) gives diff_16, else large delta (all four in [-16, 15]) gives
diff_24, and any delta outside [-16, 15] on any channel forces the
literal-color opcode. -/
theorem C8_opcode_selection (cache : List Pixel) (prev p : Pixel)
    (dr dg db da : Int)
    (hdr : dr = (p.r : Int) - (prev.r : Int))
    (hdg : dg = (p.g : Int) - (prev.g : Int))
    (hdb : db = (p.b : Int) - (prev.b : Int))
    (hda : da = (p.a : Int) - (prev.a : Int))
    (hne : p ≠ prev) :
    (p = cache.getD p.cache_index Pixel.default →
      encOp cache prev p = ([INDEX ||| p.cache_index], cache))
    ∧ (p ≠ cache.getD p.cache_index Pixel.default →
      ((da = 0 ∧ -2 ≤ dr ∧ dr ≤ 1 ∧ -2 ≤ dg ∧ dg ≤ 1 ∧ -2 ≤ db ∧ db ≤ 1 →
          encOp cache prev p
            = ([diff_8 dr dg db], cache.set p.cache_index p))
       ∧ (¬(da = 0 ∧ -2 ≤ dr ∧ dr ≤ 1 ∧ -2 ≤ dg ∧ dg ≤ 1
              ∧ -2 ≤ db ∧ db ≤ 1) →
          da = 0 ∧ -16 ≤ dr ∧ dr ≤ 15 ∧ -8 ≤ dg ∧ dg ≤ 7 ∧ -8 ≤ db ∧ db ≤ 7 →
          encOp cache prev p
            = (diff_16 dr dg db, cache.set p.cache_index p))
       ∧ (¬(da = 0 ∧ -2 ≤ dr ∧ dr ≤ 1 ∧ -2 ≤ dg ∧ dg ≤ 1
              ∧ -2 ≤ db ∧ db ≤ 1) →
          ¬(da = 0 ∧ -16 ≤ dr ∧ dr ≤ 15 ∧ -8 ≤ dg ∧ dg ≤ 7
              ∧ -8 ≤ db ∧ db ≤ 7) →
          -16 ≤ dr ∧ dr ≤ 15 ∧ -16 ≤ dg ∧ dg ≤ 15 ∧ -16 ≤ db ∧ db ≤ 15
            ∧ -16 ≤ da ∧ da ≤ 15 →
          encOp cache prev p
            = (diff_24 dr dg db da, cache.set p.cache_index p))
       ∧ (¬(-16 ≤ dr ∧ dr ≤ 15 ∧ -16 ≤ dg ∧ dg ≤ 15 ∧ -16 ≤ db ∧ db ≤ 15
              ∧ -16 ≤ da ∧ da ≤ 15) →
          encOp cache prev p
            = (encColor p dr dg db da, cache.set p.cache_index p)))) := by
  constructor
  · intro hhit
    simp only [encOp]
    rw [if_pos hhit]
  · intro hmiss
    have hrw : ∀ X : List Nat × List Pixel, encOp cache prev p = X ↔
        (if can_diff_24 dr dg db da = true then
          if can_diff_8 dr dg db da = true then
            ([diff_8 dr dg db], cache.set p.cache_index p)
          else if can_diff_16 dr dg db da = true then
            (diff_16 dr dg db, cache.set p.cache_index p)
          else (diff_24 dr dg db da, cache.set p.cache_index p)
        else (encColor p dr dg db da, cache.set p.cache_index p)) = X := by
      intro X
      simp only [encOp]
      rw [if_neg hmiss, ← hdr, ← hdg, ← hdb, ← hda]
    refine ⟨?_, ?_, ?_, ?_⟩
    · intro hsmall
      have h8 : can_diff_8 dr dg db da = true := by
        simp only [can_diff_8, is_between, Bool.and_eq_true, decide_eq_true_eq]
        omega
      have h24 : can_diff_24 dr dg db da = true := by
        simp only [can_diff_24, is_between, Bool.and_eq_true,
          decide_eq_true_eq]
        omega
      rw [hrw, if_pos h24, if_pos h8]
    · intro hnsmall hmed
      have h8 : can_diff_8 dr dg db da = false := by
        cases hc : can_diff_8 dr dg db da with
        | true => exact absurd (can_diff_8_ranges dr dg db da hc) hnsmall
        | false => rfl
      have h16 : can_diff_16 dr dg db da = true := by
        simp only [can_diff_16, is_between, Bool.and_eq_true,
          decide_eq_true_eq]
        omega
      have h24 : can_diff_24 dr dg db da = true := by
        simp only [can_diff_24, is_between, Bool.and_eq_true,
          decide_eq_true_eq]
        omega
      rw [hrw, if_pos h24, if_neg (by rw [h8]; exact Bool.false_ne_true),
        if_pos h16]
    · intro hnsmall hnmed hlarge
      have h8 : can_diff_8 dr dg db da = false := by
        cases hc : can_diff_8 dr dg db da with
        | true => exact absurd (can_diff_8_ranges dr dg db da hc) hnsmall
        | false => rfl
      have h16 : can_diff_16 dr dg db da = false := by
        cases hc : can_diff_16 dr dg db da with
        | true => exact absurd (can_diff_16_ranges dr dg db da hc) hnmed
        | false => rfl
      have h24 : can_diff_24 dr dg db da = true := by
        simp only [can_diff_24, is_between, Bool.and_eq_true,
          decide_eq_true_eq]
        omega
      rw [hrw, if_pos h24, if_neg (by rw [h8]; exact Bool.false_ne_true),
        if_neg (by rw [h16]; exact Bool.false_ne_true)]
    · intro hnlarge
      have h24 : can_diff_24 dr dg db da = false := by
        cases hc : can_diff_24 dr dg db da with
        | true => exact absurd (can_diff_24_ranges dr dg db da hc) hnlarge
        | false => rfl
      rw [hrw, if_neg (by rw [h24]; exact Bool.false_ne_true)]

/-- C8 witness: the spec's own example, a change of dr=+1, dg=-2, db=0, da=0
from previous pixel (10,10,10,255), selects the small-delta opcode. -/
theorem C8_opcode_selection_witness :
    encOp initCache (Pixel.new 10 10 10 255) (Pixel.new 11 8 10 255)
      = ([diff_8 1 (-2) 0],
          initCache.set (Pixel.new 11 8 10 255).cache_index
            (Pixel.new 11 8 10 255)) :=
  ((C8_opcode_selection initCache (Pixel.new 10 10 10 255)
      (Pixel.new 11 8 10 255) 1 (-2) 0 0 (by decide) (by decide) (by decide)
      (by decide) (by decide)).2 (by decide)).1 (by decide)

theorem bits_run8_tag : ∀ v < 32, (64 ||| v) % 32 = v ∧ (64 ||| v) / 32 = 2 := by
  decide

theorem bits_run16_tag : ∀ v < 32,
    (96 ||| v) % 32 = v ∧ (96 ||| v) / 32 = 3 := by
  decide

theorem encLoop_replicate_run (p : Pixel) (cache : List Pixel) :
    ∀ n : Nat, 1 ≤ n → ∀ r : Nat, n + r ≤ 8224 →
      encLoop (List.replicate n p) cache p r = runFlushBytes (r + n) := by
  intro n
  induction n with
  | zero => intro h; exact absurd h (by omega)
  | succ n ih =>
      intro _ r hle
      by_cases hn : n = 0
      · subst hn
        rw [show List.replicate 1 p = [p] from rfl]
        rw [encLoop_run_flush p [] cache p r rfl (Or.inr rfl)]
        rw [encLoop]
        simp
      · rw [show List.replicate (n + 1) p = p :: List.replicate n p from rfl]
        rw [encLoop_run_noflush p (List.replicate n p) cache p r rfl
          (by omega) (by simp [hn])]
        rw [ih (by omega) (r + 1) (by omega)]
        congr 1
        omega

theorem encLoop_replicate_change (p q : Pixel) (cache : List Pixel)
    (hq : q ≠ p) :
    ∀ n : Nat, 1 ≤ n → ∀ r : Nat, n + r ≤ 8224 →
      encLoop (List.replicate n p ++ [q]) cache p r
        = runFlushBytes (r + n) ++ encLoop [q] cache p 0 := by
  intro n
  induction n with
  | zero => intro h; exact absurd h (by omega)
  | succ n ih =>
      intro _ r hle
      by_cases hn : n = 0
      · subst hn
        rw [show List.replicate 1 p ++ [q] = p :: [q] from rfl]
        by_cases hcap : r + 1 = 8224
        · rw [encLoop_run_flush p [q] cache p r rfl (Or.inl hcap)]
        · rw [encLoop_run_noflush p [q] cache p r rfl hcap (by simp)]
          rw [encLoop_change q [] cache p (r + 1) hq]
          rw [encLoop_change q [] cache p 0 hq]
          rw [if_pos (show 0 < r + 1 by omega), if_neg (show ¬ 0 < 0 by omega)]
          simp
      · rw [show List.replicate (n + 1) p ++ [q]
            = p :: (List.replicate n p ++ [q]) from rfl]
        rw [encLoop_run_noflush p (List.replicate n p ++ [q]) cache p r rfl
          (by omega) (by simp)]
        rw [ih (by omega) (r + 1) (by omega)]
        have hr : r + 1 + n = r + (n + 1) := by omega
        rw [hr]

/-- C9: run boundaries (src/src/encode.rs lines 56-75).  Starting from a run
counter of 0, a maximal run of n pixels equal to the previous pixel is
emitted as exactly one runFlushBytes opcode: flushed by the following
different pixel, by the end of the buffer, or (at n = 8224) by the absolute
cap, with no counter overflow; for 1 <= n <= 32 the opcode is the single
byte RUN_8 with n-1 in its low 5 bits, and for 33 <= n <= 8224 it is the two
RUN_16 bytes carrying n-33. -/
theorem C9_run_boundaries :
    (∀ (p q : Pixel) (cache : List Pixel) (n : Nat), 1 ≤ n → n ≤ 8224 →
      q ≠ p →
      encLoop (List.replicate n p ++ [q]) cache p 0
        = runFlushBytes n ++ encLoop [q] cache p 0)
    ∧ (∀ (p : Pixel) (cache : List Pixel) (n : Nat), 1 ≤ n → n ≤ 8224 →
      encLoop (List.replicate n p) cache p 0 = runFlushBytes n)
    ∧ (∀ n : Nat, 1 ≤ n → n ≤ 32 →
      runFlushBytes n = [RUN_8 ||| (n - 1)]
      ∧ (RUN_8 ||| (n - 1)) % 32 = n - 1
      ∧ (RUN_8 ||| (n - 1)) / 32 = 2)
    ∧ (∀ n : Nat, 33 ≤ n → n ≤ 8224 →
      runFlushBytes n
        = [RUN_16 ||| ((n - 33) >>> 8) % 256, (n - 33) % 256]
      ∧ (RUN_16 ||| ((n - 33) >>> 8) % 256) % 32 * 256 + (n - 33) % 256
        = n - 33
      ∧ (RUN_16 ||| ((n - 33) >>> 8) % 256) / 32 = 3) := by
  refine ⟨?_, ?_, ?_, ?_⟩
  · intro p q cache n h1 h2 hq
    have h := encLoop_replicate_change p q cache hq n h1 0 (by omega)
    simpa using h
  · intro p cache n h1 h2
    have h := encLoop_replicate_run p cache n h1 0 (by omega)
    simpa using h
  · intro n h1 h32
    refine ⟨?_, ?_, ?_⟩
    · rw [runFlushBytes, if_pos (by omega)]
    · rw [RUN_8]
      exact (bits_run8_tag (n - 1) (by omega)).1
    · rw [RUN_8]
      exact (bits_run8_tag (n - 1) (by omega)).2
  · intro n h33 hcap
    have hv : (n - 33) >>> 8 % 256 = (n - 33) / 256 := by
      rw [Nat.shiftRight_eq_div_pow]
      omega
    have hhi : (n - 33) / 256 < 32 := by omega
    refine ⟨?_, ?_, ?_⟩
    · rw [runFlushBytes, if_neg (by omega)]
    · rw [hv, RUN_16, (bits_run16_tag ((n - 33) / 256) hhi).1]
      omega
    · rw [hv, RUN_16]
      exact (bits_run16_tag ((n - 33) / 256) hhi).2

/-- C9 witness: a maximal run of 8224 default pixels followed by a change is
one flush; a 33-run ending the buffer is one flush; the short-run byte at
n = 32 and the long-run bytes at n = 8224 carry n-1 and n-33. -/
theorem C9_run_boundaries_witness :
    encLoop (List.replicate 8224 Pixel.default ++ [Pixel.new 1 2 3 4])
        initCache Pixel.default 0
      = runFlushBytes 8224
        ++ encLoop [Pixel.new 1 2 3 4] initCache Pixel.default 0
    ∧ encLoop (List.replicate 33 Pixel.default) initCache Pixel.default 0
      = runFlushBytes 33
    ∧ (runFlushBytes 32 = [RUN_8 ||| (32 - 1)]
       ∧ (RUN_8 ||| (32 - 1)) % 32 = 32 - 1
       ∧ (RUN_8 ||| (32 - 1)) / 32 = 2)
    ∧ (runFlushBytes 8224
        = [RUN_16 ||| ((8224 - 33) >>> 8) % 256, (8224 - 33) % 256]
       ∧ (RUN_16 ||| ((8224 - 33) >>> 8) % 256) % 32 * 256
          + (8224 - 33) % 256 = 8224 - 33
       ∧ (RUN_16 ||| ((8224 - 33) >>> 8) % 256) / 32 = 3) :=
  ⟨C9_run_boundaries.1 Pixel.default (Pixel.new 1 2 3 4) initCache 8224
      (by decide) (by decide) (by decide),
   C9_run_boundaries.2.1 Pixel.default initCache 33 (by decide) (by decide),
   C9_run_boundaries.2.2.1 32 (by decide) (by decide),
   C9_run_boundaries.2.2.2 8224 (by decide) (by decide)⟩

theorem getq_of_take (a b : List Nat) (n i : Nat) (hi : i < n)
    (ht : a.take n = b.take n) : a.get? i = b.get? i :=
  calc a.get? i = (a.take n).get? i := (List.get?_take hi).symm
    _ = (b.take n).get? i := by rw [ht]
    _ = b.get? i := List.get?_take hi

theorem get_of_take (a b : List Nat) (n i : Nat) (hi : i < n)
    (ht : a.take n = b.take n) : get a i = get b i := by
  rw [get, get, getq_of_take a b n i hi ht]

theorem getD_of_take (a b : List Nat) (n i : Nat) (hi : i < n)
    (ht : a.take n = b.take n) : a.getD i 0 = b.getD i 0 :=
  show (a.get? i).getD 0 = (b.get? i).getD 0 by
    rw [getq_of_take a b n i hi ht]

/-- The COLOR branch component reads move the cursor monotonically and, when
the final cursor stays inside the agreeing prefix, read identically from two
streams that agree on that prefix. -/
theorem colorRead_stable (src1 src2 : List Nat) (m : Nat)
    (hg : ∀ i < m, get src1 i = get src2 i) (b1 : Nat) (p : Pixel)
    (pos : Nat) (px : Pixel) (pos2 : Nat)
    (h : colorRead src1 b1 p pos = .ok (px, pos2)) :
    pos ≤ pos2 ∧ (pos2 ≤ m → colorRead src2 b1 p pos = .ok (px, pos2)) := by
  rw [colorRead] at h
  split at h
  · cases h
  · rename_i s1 heq1
    split at heq1
    · rename_i h8
      split at heq1
      · cases heq1
      · rename_i v1 hget8
        cases heq1
        simp only at h
        split at h
        · cases h
        · rename_i s2 heq2
          split at heq2
          · rename_i h4
            split at heq2
            · cases heq2
            · rename_i v2 hget4
              cases heq2
              simp only at h
              split at h
              · cases h
              · rename_i s3 heq3
                split at heq3
                · rename_i h2
                  split at heq3
                  · cases heq3
                  · rename_i v3 hget2
                    cases heq3
                    simp only at h
                    split at h
                    · rename_i h1
                      split at h
                      · cases h
                      · rename_i v4 hget1
                        cases h
                        refine ⟨by omega, fun hm => ?_⟩
                        rw [colorRead]
                        rw [if_pos h8, ← hg (pos) (by omega), hget8]
                        simp only []
                        rw [if_pos h4, ← hg (pos + 1) (by omega), hget4]
                        simp only []
                        rw [if_pos h2, ← hg (pos + 1 + 1) (by omega), hget2]
                        simp only []
                        rw [if_pos h1, ← hg (pos + 1 + 1 + 1) (by omega), hget1]
                    · rename_i h1
                      cases h
                      refine ⟨by omega, fun hm => ?_⟩
                      rw [colorRead]
                      rw [if_pos h8, ← hg (pos) (by omega), hget8]
                      simp only []
                      rw [if_pos h4, ← hg (pos + 1) (by omega), hget4]
                      simp only []
                      rw [if_pos h2, ← hg (pos + 1 + 1) (by omega), hget2]
                      simp only []
                      rw [if_neg h1]
                · rename_i h2
                  cases heq3
                  simp only at h
                  split at h
                  · rename_i h1
                    split at h
                    · cases h
                    · rename_i v4 hget1
                      cases h
                      refine ⟨by omega, fun hm => ?_⟩
                      rw [colorRead]
                      rw [if_pos h8, ← hg (pos) (by omega), hget8]
                      simp only []
                      rw [if_pos h4, ← hg (pos + 1) (by omega), hget4]
                      simp only []
                      rw [if_neg h2]
                      simp only []
                      rw [if_pos h1, ← hg (pos + 1 + 1) (by omega), hget1]
                  · rename_i h1
                    cases h
                    refine ⟨by omega, fun hm => ?_⟩
                    rw [colorRead]
                    rw [if_pos h8, ← hg (pos) (by omega), hget8]
                    simp only []
                    rw [if_pos h4, ← hg (pos + 1) (by omega), hget4]
                    simp only []
                    rw [if_neg h2]
                    simp only []
                    rw [if_neg h1]
          · rename_i h4
            cases heq2
            simp only at h
            split at h
            · cases h
            · rename_i s3 heq3
              split at heq3
              · rename_i h2
                split at heq3
                · cases heq3
                · rename_i v3 hget2
                  cases heq3
                  simp only at h
                  split at h
                  · rename_i h1
                    split at h
                    · cases h
                    · rename_i v4 hget1
                      cases h
                      refine ⟨by omega, fun hm => ?_⟩
                      rw [colorRead]
                      rw [if_pos h8, ← hg (pos) (by omega), hget8]
                      simp only []
                      rw [if_neg h4]
                      simp only []
                      rw [if_pos h2, ← hg (pos + 1) (by omega), hget2]
                      simp only []
                      rw [if_pos h1, ← hg (pos + 1 + 1) (by omega), hget1]
                  · rename_i h1
                    cases h
                    refine ⟨by omega, fun hm => ?_⟩
                    rw [colorRead]
                    rw [if_pos h8, ← hg (pos) (by omega), hget8]
                    simp only []
                    rw [if_neg h4]
                    simp only []
                    rw [if_pos h2, ← hg (pos + 1) (by omega), hget2]
                    simp only []
                    rw [if_neg h1]
              · rename_i h2
                cases heq3
                simp only at h
                split at h
                · rename_i h1
                  split at h
                  · cases h
                  · rename_i v4 hget1
                    cases h
                    refine ⟨by omega, fun hm => ?_⟩
                    rw [colorRead]
                    rw [if_pos h8, ← hg (pos) (by omega), hget8]
                    simp only []
                    rw [if_neg h4]
                    simp only []
                    rw [if_neg h2]
                    simp only []
                    rw [if_pos h1, ← hg (pos + 1) (by omega), hget1]
                · rename_i h1
                  cases h
                  refine ⟨by omega, fun hm => ?_⟩
                  rw [colorRead]
                  rw [if_pos h8, ← hg (pos) (by omega), hget8]
                  simp only []
                  rw [if_neg h4]
                  simp only []
                  rw [if_neg h2]
                  simp only []
                  rw [if_neg h1]
    · rename_i h8
      cases heq1
      simp only at h
      split at h
      · cases h
      · rename_i s2 heq2
        split at heq2
        · rename_i h4
          split at heq2
          · cases heq2
          · rename_i v2 hget4
            cases heq2
            simp only at h
            split at h
            · cases h
            · rename_i s3 heq3
              split at heq3
              · rename_i h2
                split at heq3
                · cases heq3
                · rename_i v3 hget2
                  cases heq3
                  simp only at h
                  split at h
                  · rename_i h1
                    split at h
                    · cases h
                    · rename_i v4 hget1
                      cases h
                      refine ⟨by omega, fun hm => ?_⟩
                      rw [colorRead]
                      rw [if_neg h8]
                      simp only []
                      rw [if_pos h4, ← hg (pos) (by omega), hget4]
                      simp only []
                      rw [if_pos h2, ← hg (pos + 1) (by omega), hget2]
                      simp only []
                      rw [if_pos h1, ← hg (pos + 1 + 1) (by omega), hget1]
                  · rename_i h1
                    cases h
                    refine ⟨by omega, fun hm => ?_⟩
                    rw [colorRead]
                    rw [if_neg h8]
                    simp only []
                    rw [if_pos h4, ← hg (pos) (by omega), hget4]
                    simp only []
                    rw [if_pos h2, ← hg (pos + 1) (by omega), hget2]
                    simp only []
                    rw [if_neg h1]
              · rename_i h2
                cases heq3
                simp only at h
                split at h
                · rename_i h1
                  split at h
                  · cases h
                  · rename_i v4 hget1
                    cases h
                    refine ⟨by omega, fun hm => ?_⟩
                    rw [colorRead]
                    rw [if_neg h8]
                    simp only []
                    rw [if_pos h4, ← hg (pos) (by omega), hget4]
                    simp only []
                    rw [if_neg h2]
                    simp only []
                    rw [if_pos h1, ← hg (pos + 1) (by omega), hget1]
                · rename_i h1
                  cases h
                  refine ⟨by omega, fun hm => ?_⟩
                  rw [colorRead]
                  rw [if_neg h8]
                  simp only []
                  rw [if_pos h4, ← hg (pos) (by omega), hget4]
                  simp only []
                  rw [if_neg h2]
                  simp only []
                  rw [if_neg h1]
        · rename_i h4
          cases heq2
          simp only at h
          split at h
          · cases h
          · rename_i s3 heq3
            split at heq3
            · rename_i h2
              split at heq3
              · cases heq3
              · rename_i v3 hget2
                cases heq3
                simp only at h
                split at h
                · rename_i h1
                  split at h
                  · cases h
                  · rename_i v4 hget1
                    cases h
                    refine ⟨by omega, fun hm => ?_⟩
                    rw [colorRead]
                    rw [if_neg h8]
                    simp only []
                    rw [if_neg h4]
                    simp only []
                    rw [if_pos h2, ← hg (pos) (by omega), hget2]
                    simp only []
                    rw [if_pos h1, ← hg (pos + 1) (by omega), hget1]
                · rename_i h1
                  cases h
                  refine ⟨by omega, fun hm => ?_⟩
                  rw [colorRead]
                  rw [if_neg h8]
                  simp only []
                  rw [if_neg h4]
                  simp only []
                  rw [if_pos h2, ← hg (pos) (by omega), hget2]
                  simp only []
                  rw [if_neg h1]
            · rename_i h2
              cases heq3
              simp only at h
              split at h
              · rename_i h1
                split at h
                · cases h
                · rename_i v4 hget1
                  cases h
                  refine ⟨by omega, fun hm => ?_⟩
                  rw [colorRead]
                  rw [if_neg h8]
                  simp only []
                  rw [if_neg h4]
                  simp only []
                  rw [if_neg h2]
                  simp only []
                  rw [if_pos h1, ← hg (pos) (by omega), hget1]
              · rename_i h1
                cases h
                refine ⟨by omega, fun hm => ?_⟩
                rw [colorRead]
                rw [if_neg h8]
                simp only []
                rw [if_neg h4]
                simp only []
                rw [if_neg h2]
                simp only []
                rw [if_neg h1]

/-- One decoder step moves the cursor monotonically and, when its final
cursor stays inside the agreeing prefix, behaves identically on two
equal-length streams that agree on that prefix. -/
theorem decodeStep_stable (src1 src2 : List Nat) (pp m : Nat)
    (hlen : src1.length = src2.length)
    (hg : ∀ i < m, get src1 i = get src2 i)
    (st : DecSt) (px : Pixel) (st2 : DecSt)
    (h : decodeStep src1 pp st = .ok (px, st2)) :
    st.pos ≤ st2.pos ∧ (st2.pos ≤ m → decodeStep src2 pp st = .ok (px, st2)) := by
  rw [decodeStep] at h
  by_cases h0 : src1.length ≤ st.pos
  · rw [if_pos h0] at h
    cases h
  rw [if_neg h0] at h
  have h0' : ¬ src2.length ≤ st.pos := by rw [← hlen]; exact h0
  by_cases hrun : 0 < st.run
  · rw [if_pos hrun] at h
    cases h
    exact ⟨le_refl _, fun hm => by rw [decodeStep, if_neg h0', if_pos hrun]⟩
  rw [if_neg hrun] at h
  by_cases hpp : st.pos < pp
  case neg =>
    rw [if_neg hpp] at h
    cases h
    exact ⟨le_refl _, fun hm => by
      rw [decodeStep, if_neg h0', if_neg hrun, if_neg hpp]⟩
  rw [if_pos hpp] at h
  cases hb1 : get src1 st.pos with
  | error e =>
      rw [hb1] at h
      simp only at h
      cases h
  | ok b1 =>
  rw [hb1] at h
  simp only at h
  by_cases hI : b1 &&& MASK_2 = INDEX
  · rw [if_pos hI] at h
    cases h
    refine ⟨show st.pos ≤ st.pos + 1 from by omega, fun hm => ?_⟩
    have hm' : st.pos + 1 ≤ m := hm
    rw [decodeStep, if_neg h0', if_neg hrun, if_pos hpp,
      ← hg st.pos (by omega), hb1]
    simp only []
    rw [if_pos hI]
  rw [if_neg hI] at h
  by_cases hR8 : b1 &&& MASK_3 = RUN_8
  · rw [if_pos hR8] at h
    cases h
    refine ⟨show st.pos ≤ st.pos + 1 from by omega, fun hm => ?_⟩
    have hm' : st.pos + 1 ≤ m := hm
    rw [decodeStep, if_neg h0', if_neg hrun, if_pos hpp,
      ← hg st.pos (by omega), hb1]
    simp only []
    rw [if_neg hI, if_pos hR8]
  rw [if_neg hR8] at h
  by_cases hR16 : b1 &&& MASK_3 = RUN_16
  · rw [if_pos hR16] at h
    cases hb2 : get src1 (st.pos + 1) with
    | error e =>
        rw [hb2] at h
        simp only at h
        cases h
    | ok b2 =>
        rw [hb2] at h
        simp only at h
        cases h
        refine ⟨show st.pos ≤ st.pos + 1 + 1 from by omega, fun hm => ?_⟩
        have hm' : st.pos + 1 + 1 ≤ m := hm
        rw [decodeStep, if_neg h0', if_neg hrun, if_pos hpp,
          ← hg st.pos (by omega), hb1]
        simp only []
        rw [if_neg hI, if_neg hR8, if_pos hR16,
          ← hg (st.pos + 1) (by omega), hb2]
  rw [if_neg hR16] at h
  by_cases hD8 : b1 &&& MASK_2 = DIFF_8
  · rw [if_pos hD8] at h
    cases h
    refine ⟨show st.pos ≤ st.pos + 1 from by omega, fun hm => ?_⟩
    have hm' : st.pos + 1 ≤ m := hm
    rw [decodeStep, if_neg h0', if_neg hrun, if_pos hpp,
      ← hg st.pos (by omega), hb1]
    simp only []
    rw [if_neg hI, if_neg hR8, if_neg hR16, if_pos hD8]
  rw [if_neg hD8] at h
  by_cases hD16 : b1 &&& MASK_3 = DIFF_16
  · rw [if_pos hD16] at h
    cases hb2 : get src1 (st.pos + 1) with
    | error e =>
        rw [hb2] at h
        simp only at h
        cases h
    | ok b2 =>
        rw [hb2] at h
        simp only at h
        cases h
        refine ⟨show st.pos ≤ st.pos + 1 + 1 from by omega, fun hm => ?_⟩
        have hm' : st.pos + 1 + 1 ≤ m := hm
        rw [decodeStep, if_neg h0', if_neg hrun, if_pos hpp,
          ← hg st.pos (by omega), hb1]
        simp only []
        rw [if_neg hI, if_neg hR8, if_neg hR16, if_neg hD8, if_pos hD16,
          ← hg (st.pos + 1) (by omega), hb2]
  rw [if_neg hD16] at h
  by_cases hD24 : b1 &&& MASK_4 = DIFF_24
  · rw [if_pos hD24] at h
    cases hb2 : get src1 (st.pos + 1) with
    | error e =>
        rw [hb2] at h
        simp only at h
        cases h
    | ok b2 =>
    rw [hb2] at h
    simp only at h
    cases hb3 : get src1 (st.pos + 1 + 1) with
    | error e =>
        rw [hb3] at h
        simp only at h
        cases h
    | ok b3 =>
        rw [hb3] at h
        simp only at h
        cases h
        refine ⟨show st.pos ≤ st.pos + 1 + 2 from by omega, fun hm => ?_⟩
        have hm' : st.pos + 1 + 2 ≤ m := hm
        rw [decodeStep, if_neg h0', if_neg hrun, if_pos hpp,
          ← hg st.pos (by omega), hb1]
        simp only []
        rw [if_neg hI, if_neg hR8, if_neg hR16, if_neg hD8, if_neg hD16,
          if_pos hD24, ← hg (st.pos + 1) (by omega), hb2]
        simp only []
        rw [← hg (st.pos + 1 + 1) (by omega), hb3]
  rw [if_neg hD24] at h
  by_cases hC : b1 &&& MASK_4 = COLOR
  · rw [if_pos hC] at h
    cases hcr : colorRead src1 b1 st.pixel (st.pos + 1) with
    | error e =>
        rw [hcr] at h
        simp only at h
        cases h
    | ok pr =>
        obtain ⟨px1, pos2⟩ := pr
        rw [hcr] at h
        simp only at h
        cases h
        obtain ⟨HC1, HC2⟩ := colorRead_stable src1 src2 m hg b1
          st.pixel (st.pos + 1) px pos2 hcr
        refine ⟨show st.pos ≤ pos2 from by omega, fun hm => ?_⟩
        have hm' : pos2 ≤ m := hm
        rw [decodeStep, if_neg h0', if_neg hrun, if_pos hpp,
          ← hg st.pos (by omega), hb1]
        simp only []
        rw [if_neg hI, if_neg hR8, if_neg hR16, if_neg hD8, if_neg hD16,
          if_neg hD24, if_pos hC, HC2 hm']
  rw [if_neg hC] at h
  cases h
  refine ⟨show st.pos ≤ st.pos + 1 from by omega, fun hm => ?_⟩
  have hm' : st.pos + 1 ≤ m := hm
  rw [decodeStep, if_neg h0', if_neg hrun, if_pos hpp,
    ← hg st.pos (by omega), hb1]
  simp only []
  rw [if_neg hI, if_neg hR8, if_neg hR16, if_neg hD8, if_neg hD16,
    if_neg hD24, if_neg hC]

/-- The decoder loop is determined by the part of the stream below its final
cursor position: on two equal-length streams agreeing below `m`, a successful
run whose final cursor is at most `m` yields the same pixels and state. -/
theorem decodeLoop_stable (src1 src2 : List Nat) (pp m : Nat)
    (hlen : src1.length = src2.length)
    (hg : ∀ i < m, get src1 i = get src2 i) :
    ∀ (n : Nat) (st : DecSt) (ps : List Pixel) (stf : DecSt),
      decodeLoop src1 pp n st = .ok (ps, stf) →
      st.pos ≤ stf.pos
      ∧ (stf.pos ≤ m → decodeLoop src2 pp n st = .ok (ps, stf)) := by
  intro n
  induction n with
  | zero =>
      intro st ps stf h
      rw [decodeLoop] at h
      cases h
      exact ⟨le_refl _, fun _ => rfl⟩
  | succ n ih =>
      intro st ps stf h
      rw [decodeLoop] at h
      cases hs : decodeStep src1 pp st with
      | error e =>
          rw [hs] at h
          simp only at h
          cases h
      | ok v =>
      obtain ⟨px, st1⟩ := v
      rw [hs] at h
      simp only at h
      cases hl : decodeLoop src1 pp n st1 with
      | error e =>
          rw [hl] at h
          simp only at h
          cases h
      | ok w =>
          obtain ⟨ps1, stf1⟩ := w
          rw [hl] at h
          simp only at h
          cases h
          have HS := decodeStep_stable src1 src2 pp m hlen hg st px st1 hs
          have HL := ih st1 ps1 stf hl
          refine ⟨by omega, fun hm => ?_⟩
          rw [decodeLoop, HS.2 (by omega)]
          simp only []
          rw [HL.2 hm]

/-- Header parsing is determined by the buffer's length and first 14 bytes. -/
theorem new_from_slice_stable (a b : List Nat)
    (hl : a.length = b.length)
    (ht : a.take HEADER_SIZE = b.take HEADER_SIZE) :
    QoiHeader.new_from_slice a = QoiHeader.new_from_slice b := by
  have hg : ∀ i, i < 14 → a.getD i 0 = b.getD i 0 := fun i hi =>
    getD_of_take a b 14 i hi ht
  rw [QoiHeader.new_from_slice, QoiHeader.new_from_slice, hl]
  by_cases h1 : b.length < HEADER_SIZE
  · rw [if_pos h1, if_pos h1]
  rw [if_neg h1, if_neg h1]
  have h4 : a.take 4 = b.take 4 := by
    have h := congrArg (List.take 4) ht
    rw [List.take_take, List.take_take,
      show min 4 HEADER_SIZE = 4 from by decide] at h
    exact h
  rw [h4]
  by_cases hmg : b.take 4 ≠ [113, 111, 105, 102]
  · rw [if_pos hmg, if_pos hmg]
  rw [if_neg hmg, if_neg hmg]
  rw [hg 12 (by omega)]
  have hu4 : u32_from_be_bytes a 4 = u32_from_be_bytes b 4 := by
    rw [u32_from_be_bytes, u32_from_be_bytes]
    rw [hg 4 (by omega), hg (4 + 1) (by omega), hg (4 + 2) (by omega),
      hg (4 + 3) (by omega)]
  have hu8 : u32_from_be_bytes a 8 = u32_from_be_bytes b 8 := by
    rw [u32_from_be_bytes, u32_from_be_bytes]
    rw [hg 8 (by omega), hg (8 + 1) (by omega), hg (8 + 2) (by omega),
      hg (8 + 3) (by omega)]
  rw [hu4, hu8, hg 13 (by omega)]

/-- C10: the decoder never inspects the footer bytes.  For a stream whose
opcode section produces all declared pixels without the cursor entering the
final 4 bytes, replacing those 4 bytes with any other values of the same
length yields the same successful decode result. -/
theorem C10_footer_not_inspected
    (input input2 : List Nat) (channels : Option Channels) (dest : List Nat)
    (header : QoiHeader) (ps : List Pixel) (stf : DecSt)
    (hparse : QoiHeader.new_from_slice input = .ok header)
    (hlen2 : input2.length = input.length)
    (hagree : input2.take (input.length - PADDING)
      = input.take (input.length - PADDING))
    (hguard1 : ¬ dest.length
      < header.raw_image_size (channels.getD header.channels))
    (hguard2 : ¬ input.length < HEADER_SIZE + PADDING)
    (hloop : decodeLoop (input.drop HEADER_SIZE) (input.length - PADDING)
        (dest.length / (channels.getD header.channels).len)
        ⟨initCache, 0, Pixel.new 0 0 0 255, 0⟩ = .ok (ps, stf))
    (hend : stf.pos ≤ input.length - PADDING - HEADER_SIZE) :
    qoi_decode input2 channels dest
      = .ok ((ps.map (pixelBytes (channels.getD header.channels))).flatten
          ++ dest.drop (dest.length / (channels.getD header.channels).len
            * (channels.getD header.channels).len))
    ∧ qoi_decode input2 channels dest = qoi_decode input channels dest := by
  have h14 : input2.take HEADER_SIZE = input.take HEADER_SIZE := by
    have h := congrArg (List.take HEADER_SIZE) hagree
    rw [List.take_take, List.take_take] at h
    rwa [show min HEADER_SIZE (input.length - PADDING) = HEADER_SIZE from by
      simp only [HEADER_SIZE, PADDING] at hguard2 ⊢
      omega] at h
  have hparse2 : QoiHeader.new_from_slice input2 = .ok header := by
    rw [new_from_slice_stable input2 input (by rw [hlen2]) h14]
    exact hparse
  have hdlen : (input.drop HEADER_SIZE).length
      = (input2.drop HEADER_SIZE).length := by
    simp [hlen2]
  have hsrc_take : (input.drop HEADER_SIZE).take
        (input.length - PADDING - HEADER_SIZE)
      = (input2.drop HEADER_SIZE).take
        (input.length - PADDING - HEADER_SIZE) := by
    rw [List.take_drop, List.take_drop,
      show HEADER_SIZE + (input.length - PADDING - HEADER_SIZE)
        = input.length - PADDING from by
        simp only [HEADER_SIZE, PADDING] at hguard2 ⊢
        omega,
      hagree]
  have hg : ∀ i < input.length - PADDING - HEADER_SIZE,
      get (input.drop HEADER_SIZE) i = get (input2.drop HEADER_SIZE) i :=
    fun i hi => get_of_take _ _ _ i hi hsrc_take
  obtain ⟨hmono, hsame⟩ := decodeLoop_stable (input.drop HEADER_SIZE)
    (input2.drop HEADER_SIZE) (input.length - PADDING)
    (input.length - PADDING - HEADER_SIZE) hdlen hg
    (dest.length / (channels.getD header.channels).len)
    ⟨initCache, 0, Pixel.new 0 0 0 255, 0⟩ ps stf hloop
  have hloop2 := hsame hend
  have hq1 : qoi_decode input channels dest
      = .ok ((ps.map (pixelBytes (channels.getD header.channels))).flatten
          ++ dest.drop (dest.length / (channels.getD header.channels).len
            * (channels.getD header.channels).len)) := by
    rw [qoi_decode, hparse]
    simp only
    rw [if_neg hguard1, if_neg hguard2, hloop]
  have hq2 : qoi_decode input2 channels dest
      = .ok ((ps.map (pixelBytes (channels.getD header.channels))).flatten
          ++ dest.drop (dest.length / (channels.getD header.channels).len
            * (channels.getD header.channels).len)) := by
    rw [qoi_decode, hparse2]
    simp only
    rw [if_neg hguard1,
      if_neg (show ¬ input2.length < HEADER_SIZE + PADDING from by
        rw [hlen2]; exact hguard2),
      show input2.length - PADDING = input.length - PADDING from by
        rw [hlen2],
      hloop2]
  exact ⟨hq2, hq2.trans hq1.symm⟩

/-- C10 witness: a 22-byte 1x1 three-channel stream whose single COLOR
opcode produces the declared pixel; replacing its zero footer with
[9, 9, 9, 9] yields the same successful decode. -/
theorem C10_footer_not_inspected_witness :
    qoi_decode
        [113, 111, 105, 102, 0, 0, 0, 1, 0, 0, 0, 1, 3, 0, 254, 10, 20, 30,
          9, 9, 9, 9] (some Channels.Three) [7, 7, 7] = .ok [10, 20, 30]
    ∧ qoi_decode
        [113, 111, 105, 102, 0, 0, 0, 1, 0, 0, 0, 1, 3, 0, 254, 10, 20, 30,
          9, 9, 9, 9] (some Channels.Three) [7, 7, 7]
      = qoi_decode
        [113, 111, 105, 102, 0, 0, 0, 1, 0, 0, 0, 1, 3, 0, 254, 10, 20, 30,
          0, 0, 0, 0] (some Channels.Three) [7, 7, 7] := by
  have H := C10_footer_not_inspected
    [113, 111, 105, 102, 0, 0, 0, 1, 0, 0, 0, 1, 3, 0, 254, 10, 20, 30,
      0, 0, 0, 0]
    [113, 111, 105, 102, 0, 0, 0, 1, 0, 0, 0, 1, 3, 0, 254, 10, 20, 30,
      9, 9, 9, 9]
    (some Channels.Three) [7, 7, 7] (QoiHeader.new 1 1 Channels.Three 0)
    [Pixel.new 10 20 30 255]
    ⟨initCache.set 63 (Pixel.new 10 20 30 255), 0, Pixel.new 10 20 30 255, 4⟩
    (by decide) (by decide) (by decide) (by decide) (by decide) (by decide)
    (by decide)
  exact ⟨H.1.trans (by decide), H.2⟩

end Qoi
